import Mathlib

/-!
Verification of the AShareReview daily market-statistics engine
(`fetch_data.py`, class `AShareAnalyzer`) against its design specification.

The Python code is shallowly embedded: pandas data frames become lists of
structures, provider calls become explicit `Except Unit` inputs, Python
exceptions that escape to an enclosing handler become `Except`/`Option`
results, dictionaries become association lists or structures with `Option`
fields (a `none` field models an absent key), and Python `float` arithmetic
is modelled over `ℚ`.  `round(x, 2)` (Python builtin and pandas `.round(2)`,
both round-half-to-even) is modelled by `roundTo2`.
-/

/-- The four market segments (板块) of `classify_stock_board`. -/
inductive Board where
  | main
  | sciTech
  | growth
  | beijing
deriving DecidableEq, Repr

/-- Embedding of `AShareAnalyzer.classify_stock_board` (fetch_data.py:423-441):
prefix "68" → SciTech, "3" → Growth, "4"/"8"/"9" → Beijing Exchange,
"0" or "6" → MainBoard, anything else defaults to MainBoard. -/
def classify_stock_board (code : String) : Board :=
  if code.startsWith "68" then .sciTech
  else if code.startsWith "3" then .growth
  else if code.startsWith "4" || code.startsWith "8" || code.startsWith "9" then .beijing
  else if code.startsWith "0" then .main
  else if code.startsWith "6" then .main
  else .main

/-- Number of hundredths selected by round-half-to-even from `x`:
the nearer of `⌊100x⌋` and `⌊100x⌋+1`, ties resolved to the even one. -/
def roundInt2 (x : ℚ) : ℤ :=
  if x * 100 - (⌊x * 100⌋ : ℚ) < 1/2 then ⌊x * 100⌋
  else if 1/2 < x * 100 - (⌊x * 100⌋ : ℚ) then ⌊x * 100⌋ + 1
  else if ⌊x * 100⌋ % 2 = 0 then ⌊x * 100⌋ else ⌊x * 100⌋ + 1

/-- Round half to even at two decimal places, the rounding mode of Python's
builtin `round(x, 2)` and of pandas `.round(2)`, over exact rationals. -/
def roundTo2 (x : ℚ) : ℚ := (roundInt2 x : ℚ) / 100

/-- One row of the full-market snapshot table (`ak.stock_zh_a_spot_em`):
code 代码, name 名称, latest price 最新价, percent change 涨跌幅, intraday
low 最低 and high 最高.  The 板块 (segment) column that the code attaches is
the pure function `classify_stock_board` of the code, so it is recomputed
on demand rather than stored. -/
structure StockRow where
  code : String
  name : String
  price : ℚ
  pct : ℚ
  low : ℚ
  high : ℚ
deriving DecidableEq, Repr

/-- Segment of a snapshot row (the attached 板块 column). -/
def StockRow.board (r : StockRow) : Board := classify_stock_board r.code

/-- The mutable cache of `AShareAnalyzer`: `_cached_stock_data` and
`_cache_timestamp` (fetch_data.py:74-75).  Timestamps are seconds. -/
structure CacheState where
  cachedStockData : Option (List StockRow)
  cacheTimestamp : Option Nat
deriving DecidableEq, Repr

/-- Cache state of a fresh `AShareAnalyzer` instance. -/
def initCache : CacheState := { cachedStockData := none, cacheTimestamp := none }

/-- Result of one call of `get_stock_data_with_board`: the returned table,
the cache state after the call, and whether the external provider
(`ak.stock_zh_a_spot_em`) was invoked. -/
structure FetchOutcome where
  data : List StockRow
  state : CacheState
  providerCalled : Bool
deriving DecidableEq, Repr

/-- Embedding of `AShareAnalyzer.get_stock_data_with_board`
(fetch_data.py:87-139).  `provider` is the outcome the external provider
would deliver if called.  The Python freshness check uses
`(current_time - self._cache_timestamp).seconds < 300`; for a nonnegative
timedelta of `a` whole seconds, `.seconds` equals `a % 86400` (the
seconds-within-a-day component), which is modelled literally.  All
exceptions of the provider call are absorbed by the `except` block, so the
call always returns a table. -/
def get_stock_data_with_board (st : CacheState) (force_refresh : Bool) (now : Nat)
    (provider : Except Unit (List StockRow)) : FetchOutcome :=
  if force_refresh = false ∧ st.cachedStockData.isSome ∧ st.cacheTimestamp.isSome
      ∧ (now - st.cacheTimestamp.getD 0) % 86400 < 300 then
    { data := st.cachedStockData.getD [], state := st, providerCalled := false }
  else
    match provider with
    | .ok stock_data =>
      if stock_data.isEmpty then
        { data := [], state := st, providerCalled := true }
      else
        { data := stock_data,
          state := { cachedStockData := some stock_data, cacheTimestamp := some now },
          providerCalled := true }
    | .error _ =>
      match st.cachedStockData with
      | some c => { data := c, state := st, providerCalled := true }
      | none => { data := [], state := st, providerCalled := true }

/-- One call of the snapshot cache in a process trace: the `force_refresh`
argument, the wall-clock time of the call, and the outcome the provider
would deliver if invoked. -/
structure CallInput where
  force : Bool
  now : Nat
  provider : Except Unit (List StockRow)

/-- Fold a trace of calls of `get_stock_data_with_board` over the cache
state, returning the final state. -/
def runCalls (st : CacheState) : List CallInput → CacheState
  | [] => st
  | c :: cs => runCalls (get_stock_data_with_board st c.force c.now c.provider).state cs

/-- One row of a limit pool table (涨停/跌停/炸板股池): code 代码 and the
consecutive limit-up day count 连板数 (only read from the limit-up pool). -/
structure PoolRow where
  code : String
  consecutive : Nat
deriving DecidableEq, Repr

/-- Segment of a pool row (the attached 板块 column). -/
def PoolRow.board (r : PoolRow) : Board := classify_stock_board r.code

/-- Number of rows of a pool that classify to a given segment. -/
def boardCount (pool : List PoolRow) (b : Board) : Nat :=
  (pool.filter (fun r => r.board == b)).length

/-- The per-segment entry of the `board_limit_stats` dictionary of
`get_market_stats`: each field is `some` exactly when the corresponding key
(涨停数量 / 炸板数量 / 跌停数量) has been stored for that segment. -/
structure BoardLimitStats where
  zt : Option Nat
  zb : Option Nat
  dt : Option Nat
deriving DecidableEq, Repr

/-- Membership test `board in board_limit_stats`: the segment was entered
into the dictionary iff at least one of its keys was stored. -/
def BoardLimitStats.memKey (x : BoardLimitStats) : Bool :=
  x.zt.isSome || x.zb.isSome || x.dt.isSome

/-- The whole `board_limit_stats` dictionary, one entry per segment. -/
structure BLSMap where
  main : BoardLimitStats
  sciTech : BoardLimitStats
  growth : BoardLimitStats
  beijing : BoardLimitStats
deriving DecidableEq, Repr

/-- Look up a segment in `board_limit_stats`. -/
def BLSMap.get (m : BLSMap) : Board → BoardLimitStats
  | .main => m.main
  | .sciTech => m.sciTech
  | .growth => m.growth
  | .beijing => m.beijing

/-- The empty `board_limit_stats` dictionary. -/
def blsEmpty : BLSMap := ⟨⟨none, none, none⟩, ⟨none, none, none⟩, ⟨none, none, none⟩, ⟨none, none, none⟩⟩

/-- Store the 涨停数量 key for every segment (the loop at
fetch_data.py:642-650 runs over all four segments). -/
def BLSMap.withZT (m : BLSMap) (f : Board → Nat) : BLSMap :=
  { main := { m.main with zt := some (f .main) },
    sciTech := { m.sciTech with zt := some (f .sciTech) },
    growth := { m.growth with zt := some (f .growth) },
    beijing := { m.beijing with zt := some (f .beijing) } }

/-- Store the 炸板数量 key for every segment (fetch_data.py:665-671). -/
def BLSMap.withZB (m : BLSMap) (f : Board → Nat) : BLSMap :=
  { main := { m.main with zb := some (f .main) },
    sciTech := { m.sciTech with zb := some (f .sciTech) },
    growth := { m.growth with zb := some (f .growth) },
    beijing := { m.beijing with zb := some (f .beijing) } }

/-- Store the 跌停数量 key for every segment (fetch_data.py:691-697). -/
def BLSMap.withDT (m : BLSMap) (f : Board → Nat) : BLSMap :=
  { main := { m.main with dt := some (f .main) },
    sciTech := { m.sciTech with dt := some (f .sciTech) },
    growth := { m.growth with dt := some (f .growth) },
    beijing := { m.beijing with dt := some (f .beijing) } }

/-- State produced by the first `try` block of `get_market_stats`
(fetch_data.py:630-677), which fetches the limit-up pool and then the
exploded pool under ONE shared handler.  Python locals that the block may
leave unassigned (`consecutive_limit_ups`, assigned only when the limit-up
fetch returned; `greater_than_ten_of_limit_up`, assigned only when the
limit-up pool was additionally non-empty) are `Option`-valued: `none`
models an unassigned local, whose later use raises `NameError`. -/
structure LimitPoolsState where
  limit_up_count : Nat
  exploded_count : Nat
  consecutive_limit_ups : Option Nat
  greater_than_ten_of_limit_up : Option Nat
  bls : BLSMap
deriving DecidableEq, Repr

/-- Embedding of the first `try` block of `get_market_stats`
(fetch_data.py:630-677).  A limit-up fetch failure is caught by the shared
handler, so the exploded fetch is then never attempted; an exploded fetch
failure is caught after the limit-up updates have already happened. -/
def limitPoolsFetch (fetchLimitUp fetchExploded : Except Unit (List PoolRow)) :
    LimitPoolsState :=
  match fetchLimitUp with
  | .error _ =>
    { limit_up_count := 0, exploded_count := 0, consecutive_limit_ups := none,
      greater_than_ten_of_limit_up := none, bls := blsEmpty }
  | .ok limit_up_data =>
    let s1 : LimitPoolsState :=
      if limit_up_data.isEmpty then
        { limit_up_count := 0, exploded_count := 0, consecutive_limit_ups := none,
          greater_than_ten_of_limit_up := none, bls := blsEmpty }
      else
        { limit_up_count := limit_up_data.length, exploded_count := 0,
          consecutive_limit_ups := none,
          greater_than_ten_of_limit_up :=
            some (boardCount limit_up_data .sciTech + boardCount limit_up_data .growth
              + boardCount limit_up_data .beijing),
          bls := blsEmpty.withZT (boardCount limit_up_data) }
    let s2 : LimitPoolsState :=
      { s1 with consecutive_limit_ups := some (limit_up_data.countP (fun r => 2 ≤ r.consecutive)) }
    match fetchExploded with
    | .error _ => s2
    | .ok exploded_data =>
      if exploded_data.isEmpty then s2
      else
        { s2 with exploded_count := exploded_data.length,
                  bls := s2.bls.withZB (boardCount exploded_data) }

/-- State produced by the second `try` block of `get_market_stats`
(fetch_data.py:679-705), which fetches the limit-down pool under its own
handler.  `greater_than_ten_of_limit_down` is assigned only when the fetch
returned a non-empty pool. -/
structure LimitDownState where
  limit_down_count : Nat
  greater_than_ten_of_limit_down : Option Nat
  bls : BLSMap
deriving DecidableEq, Repr

/-- Embedding of the limit-down `try` block (fetch_data.py:679-705). -/
def limitDownFetch (fetchLimitDown : Except Unit (List PoolRow)) (bls : BLSMap) :
    LimitDownState :=
  match fetchLimitDown with
  | .error _ => { limit_down_count := 0, greater_than_ten_of_limit_down := none, bls := bls }
  | .ok limit_down_data =>
    if limit_down_data.isEmpty then
      { limit_down_count := 0, greater_than_ten_of_limit_down := none, bls := bls }
    else
      { limit_down_count := limit_down_data.length,
        greater_than_ten_of_limit_down :=
          some (boardCount limit_down_data .sciTech + boardCount limit_down_data .growth
            + boardCount limit_down_data .beijing),
        bls := bls.withDT (boardCount limit_down_data) }

/-- The money-effect expression of `get_market_stats`
(fetch_data.py:718 and 747): `up / (up+down+flat) * 100` when the segment
has stocks, else `0` — the division is guarded by the denominator test. -/
def moneyEffectCalc (up_count down_count flat_count : Nat) : ℚ :=
  if 0 < up_count + down_count + flat_count then
    (up_count : ℚ) / ((up_count + down_count + flat_count : Nat) : ℚ) * 100
  else 0

/-- The exploded-rate expression of `get_market_stats`
(fetch_data.py:737 and 753): `exploded / (limitUp+exploded) * 100` when the
denominator is positive, else `0`. -/
def explodedRateCalc (exploded_count limit_up_count : Nat) : ℚ :=
  if 0 < limit_up_count + exploded_count then
    (exploded_count : ℚ) / ((limit_up_count + exploded_count : Nat) : ℚ) * 100
  else 0

/-- One value of the `board_stats` dictionary of `get_market_stats`
(fetch_data.py:720-738).  `Option` fields model keys that are only
conditionally stored. -/
structure BoardStat where
  total : Nat
  up : Nat
  down : Nat
  flat : Nat
  moneyEffect : ℚ
  zt : Option Nat
  zb : Option Nat
  dt : Option Nat
  explodedRate : Option ℚ
deriving DecidableEq, Repr

/-- The `board_stats` value stored for a segment at fetch_data.py:720-726,
before the conditional merge of the limit-pool keys: up/down/flat counts
from the sign of 涨跌幅 and the rounded money effect. -/
def mkBoardStatBase (board_data : List StockRow) : BoardStat :=
  { total := board_data.countP (fun r => decide (0 < r.pct))
      + board_data.countP (fun r => decide (r.pct < 0))
      + board_data.countP (fun r => decide (r.pct = 0)),
    up := board_data.countP (fun r => decide (0 < r.pct)),
    down := board_data.countP (fun r => decide (r.pct < 0)),
    flat := board_data.countP (fun r => decide (r.pct = 0)),
    moneyEffect := roundTo2 (moneyEffectCalc (board_data.countP (fun r => decide (0 < r.pct)))
      (board_data.countP (fun r => decide (r.pct < 0)))
      (board_data.countP (fun r => decide (r.pct = 0)))),
    zt := none, zb := none, dt := none, explodedRate := none }

/-- The `board_stats` value after the merge at fetch_data.py:731-738: the
stored limit-pool keys are copied in and the exploded rate is computed from
`.get('涨停数量', 0)` and `.get('炸板数量', 0)` defaults. -/
def mkBoardStatMem (board_data : List StockRow) (blsb : BoardLimitStats) : BoardStat :=
  { mkBoardStatBase board_data with
    zt := blsb.zt
    zb := blsb.zb
    dt := blsb.dt
    explodedRate := some (roundTo2 (explodedRateCalc (blsb.zb.getD 0) (blsb.zt.getD 0))) }

/-- The two increments a SciTech/Growth iteration adds to
`greater_than_ten_of_not_limit_up` and `..._down` (fetch_data.py:727-729):
integers, since the Python subtraction can go below zero.  `.error` models
the `KeyError` raised when `board_limit_stats[board]` lacks the 涨停数量 or
跌停数量 key; other segments add nothing. -/
def gtTenInc (board_data : List StockRow) (blsb : BoardLimitStats) (b : Board) :
    Except Unit (ℤ × ℤ) :=
  if b == Board.sciTech || b == Board.growth then
    match blsb.zt, blsb.dt with
    | some ztv, some dtv =>
      .ok (((board_data.countP (fun r => decide (10 < r.pct)) : ℤ) - (ztv : ℤ)),
        ((board_data.countP (fun r => decide (r.pct < -10)) : ℤ) - (dtv : ℤ)))
    | _, _ => .error ()
  else .ok ((0 : ℤ), (0 : ℤ))

/-- Embedding of one iteration of the per-segment statistics loop of
`get_market_stats` (fetch_data.py:711-738).  Returns `none` for the
segment when it has no snapshot rows, otherwise the `board_stats` entry,
together with this iteration's two `greater_than_ten_of_not_limit_*`
increments.  A `.error` result is the `KeyError` of `gtTenInc`, escaping
to the outer handler of `get_market_stats`. -/
def processBoard (stock_data : List StockRow) (bls : BLSMap) (b : Board) :
    Except Unit (Option BoardStat × ℤ × ℤ) :=
  let board_data := stock_data.filter (fun r => r.board == b)
  if board_data.isEmpty then .ok (none, 0, 0)
  else
    match gtTenInc board_data (bls.get b) b with
    | .error e => .error e
    | .ok inc =>
      if (bls.get b).memKey then .ok (some (mkBoardStatMem board_data (bls.get b)), inc.1, inc.2)
      else .ok (some (mkBoardStatBase board_data), inc.1, inc.2)

/-- `board_stats` dictionary entry for one segment, empty when the loop
stored nothing for it. -/
def optEntry (b : Board) : Option BoardStat → List (Board × BoardStat)
  | some s => [(b, s)]
  | none => []

/-- Truncation toward zero, the behaviour of Python `int()` on a number. -/
def ratTrunc (q : ℚ) : ℤ := q.num / q.den

/-- The aggregated daily record returned by `get_market_stats`
(fetch_data.py:758-778).  Keys of the Python result dictionary map to
fields in order. -/
structure MarketStatsRecord where
  totalAmount : ℤ
  szChange : ℚ
  szVolumeRatio : ℚ
  upDownRate : String
  limitUpCount : Nat
  nonMainLimitUp : Nat
  gtTenNotLimitUp : ℤ
  limitDownCount : Nat
  nonMainLimitDown : Nat
  gtTenNotLimitDown : ℤ
  consecutiveLimitUps : Nat
  upCount : Nat
  downCount : Nat
  flatCount : Nat
  moneyEffect : ℚ
  explodedRate : ℚ
  boardStats : List (Board × BoardStat)
deriving DecidableEq, Repr

/-- Main body of `get_market_stats` after the two pool blocks: the
per-segment loop, the market-wide statistics and the final record
(fetch_data.py:707-778).  Any branch returning `none` models an exception
(`KeyError` from the loop, `NameError` from an unassigned local at
fetch_data.py:754, 755/757 or 769) escaping to the outer handler, which
returns the empty record. -/
def marketStatsBody (stock_data : List StockRow) (s1 : LimitPoolsState) (s2 : LimitDownState)
    (total_amount : ℤ) (idxVolumeRatio idxChange : ℚ) : Option MarketStatsRecord :=
  match processBoard stock_data s2.bls .main, processBoard stock_data s2.bls .sciTech,
      processBoard stock_data s2.bls .growth, processBoard stock_data s2.bls .beijing,
      s2.greater_than_ten_of_limit_down, s1.greater_than_ten_of_limit_up,
      s1.consecutive_limit_ups with
  | .ok (stM, iU0, iD0), .ok (stS, iU1, iD1), .ok (stG, iU2, iD2), .ok (stB, iU3, iD3),
      some gtLD, some gtLU, some consec =>
    some
      { totalAmount := total_amount, szChange := idxChange, szVolumeRatio := idxVolumeRatio,
        upDownRate :=
          if 0 < gtLD then
            toString s1.limit_up_count ++ "(" ++ toString gtLU ++ ")+"
              ++ toString (iU0 + iU1 + iU2 + iU3) ++ ":" ++ toString s2.limit_down_count
              ++ "(" ++ toString gtLD ++ ")+" ++ toString (iD0 + iD1 + iD2 + iD3)
          else
            toString s1.limit_up_count ++ "(" ++ toString gtLU ++ ")+"
              ++ toString (iU0 + iU1 + iU2 + iU3) ++ ":" ++ toString s2.limit_down_count
              ++ "+" ++ toString (iD0 + iD1 + iD2 + iD3),
        limitUpCount := s1.limit_up_count, nonMainLimitUp := gtLU,
        gtTenNotLimitUp := iU0 + iU1 + iU2 + iU3,
        limitDownCount := s2.limit_down_count, nonMainLimitDown := gtLD,
        gtTenNotLimitDown := iD0 + iD1 + iD2 + iD3,
        consecutiveLimitUps := consec,
        upCount := stock_data.countP (fun r => decide (0 < r.pct)),
        downCount := stock_data.countP (fun r => decide (r.pct < 0)),
        flatCount := stock_data.countP (fun r => decide (r.pct = 0)),
        moneyEffect := roundTo2 (moneyEffectCalc (stock_data.countP (fun r => decide (0 < r.pct)))
          (stock_data.countP (fun r => decide (r.pct < 0)))
          (stock_data.countP (fun r => decide (r.pct = 0)))),
        explodedRate := roundTo2 (explodedRateCalc s1.exploded_count s1.limit_up_count),
        boardStats := optEntry .main stM ++ optEntry .sciTech stS ++ optEntry .growth stG
          ++ optEntry .beijing stB }
  | _, _, _, _, _, _, _ => none

/-- Embedding of `AShareAnalyzer.get_market_stats` (fetch_data.py:594-785).
The index row (two traded amounts, volume ratio, percent change) is given
directly; `none` is the empty record `{}`, returned both by the empty-
snapshot short circuit (line 608) and by the outer exception handler
(line 785). -/
def get_market_stats (idxAmount0 idxAmount1 idxVolumeRatio idxChange : ℚ)
    (stock_data : List StockRow)
    (fetchLimitUp fetchExploded fetchLimitDown : Except Unit (List PoolRow)) :
    Option MarketStatsRecord :=
  if stock_data.isEmpty then none
  else
    let total_amount : ℤ := Int.fdiv (ratTrunc (idxAmount0 + idxAmount1)) (10 ^ 8)
    let s1 := limitPoolsFetch fetchLimitUp fetchExploded
    let s2 := limitDownFetch fetchLimitDown s1.bls
    marketStatsBody stock_data s1 s2 total_amount idxVolumeRatio idxChange

theorem roundInt2_ge_floor (x : ℚ) : ⌊x * 100⌋ ≤ roundInt2 x := by
  unfold roundInt2
  split
  · exact le_refl _
  · split
    · omega
    · split <;> omega

theorem roundInt2_le_floor_add_one (x : ℚ) : roundInt2 x ≤ ⌊x * 100⌋ + 1 := by
  unfold roundInt2
  split
  · omega
  · split
    · omega
    · split <;> omega

theorem roundTo2_nonneg {x : ℚ} (hx : 0 ≤ x) : 0 ≤ roundTo2 x := by
  have h1 : (0 : ℤ) ≤ ⌊x * 100⌋ := Int.floor_nonneg.mpr (by positivity)
  have h2 := roundInt2_ge_floor x
  have h3 : (0 : ℚ) ≤ (roundInt2 x : ℚ) := by exact_mod_cast le_trans h1 h2
  unfold roundTo2
  exact div_nonneg h3 (by norm_num)

theorem roundTo2_le_100 {x : ℚ} (hx : x ≤ 100) : roundTo2 x ≤ 100 := by
  have hfl : ⌊x * 100⌋ ≤ 10000 := by
    have hh : x * 100 ≤ 10000 := by linarith
    have h2 := Int.floor_le_floor (α := ℚ) hh
    simpa using h2
  have hn : roundInt2 x ≤ 10000 := by
    rcases lt_or_eq_of_le hfl with h | h
    · have h2 := roundInt2_le_floor_add_one x
      omega
    · have hy : x * 100 - (⌊x * 100⌋ : ℚ) < 1/2 := by
        rw [h]
        push_cast
        linarith
      unfold roundInt2
      rw [if_pos hy, h]
  unfold roundTo2
  rw [div_le_iff₀ (by norm_num : (0:ℚ) < 100)]
  have h4 : ((roundInt2 x : ℚ)) ≤ ((10000 : ℤ) : ℚ) := by exact_mod_cast hn
  push_cast at h4
  linarith

theorem roundTo2_zero : roundTo2 0 = 0 := by
  unfold roundTo2 roundInt2
  norm_num

theorem moneyEffectCalc_nonneg (u d f : ℕ) : 0 ≤ moneyEffectCalc u d f := by
  unfold moneyEffectCalc
  split
  · positivity
  · exact le_refl 0

theorem moneyEffectCalc_le_100 (u d f : ℕ) : moneyEffectCalc u d f ≤ 100 := by
  unfold moneyEffectCalc
  split
  · rename_i h
    have hpos : (0 : ℚ) < ((u + d + f : ℕ) : ℚ) := by exact_mod_cast h
    have hle : ((u : ℕ) : ℚ) ≤ ((u + d + f : ℕ) : ℚ) := by
      have : u ≤ u + d + f := by omega
      exact_mod_cast this
    have h1 : ((u : ℕ) : ℚ) / ((u + d + f : ℕ) : ℚ) ≤ 1 := (div_le_one hpos).mpr hle
    have h2 := mul_le_mul_of_nonneg_right h1 (by norm_num : (0:ℚ) ≤ 100)
    simpa using h2
  · norm_num

theorem moneyEffectCalc_zero_denom (u d f : ℕ) (h : u + d + f = 0) :
    moneyEffectCalc u d f = 0 := by
  unfold moneyEffectCalc
  simp [h]

theorem explodedRateCalc_nonneg (e l : ℕ) : 0 ≤ explodedRateCalc e l := by
  unfold explodedRateCalc
  split
  · positivity
  · exact le_refl 0

theorem explodedRateCalc_le_100 (e l : ℕ) : explodedRateCalc e l ≤ 100 := by
  unfold explodedRateCalc
  split
  · rename_i h
    have hpos : (0 : ℚ) < ((l + e : ℕ) : ℚ) := by exact_mod_cast h
    have hle : ((e : ℕ) : ℚ) ≤ ((l + e : ℕ) : ℚ) := by
      have : e ≤ l + e := by omega
      exact_mod_cast this
    have h1 : ((e : ℕ) : ℚ) / ((l + e : ℕ) : ℚ) ≤ 1 := (div_le_one hpos).mpr hle
    have h2 := mul_le_mul_of_nonneg_right h1 (by norm_num : (0:ℚ) ≤ 100)
    simpa using h2
  · norm_num

theorem explodedRateCalc_zero_denom (e l : ℕ) (h : l + e = 0) :
    explodedRateCalc e l = 0 := by
  unfold explodedRateCalc
  simp [h]

/-- Any `board_stats` entry built by the base constructor satisfies the
percentage bounds. -/
theorem mkBoardStatBase_bounds (bd : List StockRow) :
    (0 ≤ (mkBoardStatBase bd).moneyEffect ∧ (mkBoardStatBase bd).moneyEffect ≤ 100) ∧
    ((mkBoardStatBase bd).total = 0 → (mkBoardStatBase bd).moneyEffect = 0) ∧
    ∀ er, (mkBoardStatBase bd).explodedRate = some er →
      (0 ≤ er ∧ er ≤ 100) ∧ ((mkBoardStatBase bd).zt.getD 0 + (mkBoardStatBase bd).zb.getD 0 = 0 → er = 0) := by
  refine ⟨⟨roundTo2_nonneg (moneyEffectCalc_nonneg _ _ _),
    roundTo2_le_100 (moneyEffectCalc_le_100 _ _ _)⟩, ?_, ?_⟩
  · intro ht
    simp only [mkBoardStatBase] at ht ⊢
    rw [moneyEffectCalc_zero_denom _ _ _ ht, roundTo2_zero]
  · intro er her
    simp [mkBoardStatBase] at her

/-- Any `board_stats` entry built by the merging constructor satisfies the
percentage bounds. -/
theorem mkBoardStatMem_bounds (bd : List StockRow) (blsb : BoardLimitStats) :
    (0 ≤ (mkBoardStatMem bd blsb).moneyEffect ∧ (mkBoardStatMem bd blsb).moneyEffect ≤ 100) ∧
    ((mkBoardStatMem bd blsb).total = 0 → (mkBoardStatMem bd blsb).moneyEffect = 0) ∧
    ∀ er, (mkBoardStatMem bd blsb).explodedRate = some er →
      (0 ≤ er ∧ er ≤ 100) ∧ ((mkBoardStatMem bd blsb).zt.getD 0 + (mkBoardStatMem bd blsb).zb.getD 0 = 0 → er = 0) := by
  refine ⟨⟨roundTo2_nonneg (moneyEffectCalc_nonneg _ _ _),
    roundTo2_le_100 (moneyEffectCalc_le_100 _ _ _)⟩, ?_, ?_⟩
  · intro ht
    simp only [mkBoardStatMem, mkBoardStatBase] at ht ⊢
    rw [moneyEffectCalc_zero_denom _ _ _ ht, roundTo2_zero]
  · intro er her
    simp only [mkBoardStatMem, mkBoardStatBase, Option.some.injEq] at her ⊢
    subst her
    refine ⟨⟨roundTo2_nonneg (explodedRateCalc_nonneg _ _),
      roundTo2_le_100 (explodedRateCalc_le_100 _ _)⟩, ?_⟩
    intro hz
    rw [explodedRateCalc_zero_denom _ _ (by omega), roundTo2_zero]

/-- Every segment entry that `processBoard` emits is one of the two
constructor shapes. -/
theorem processBoard_ok_shape {sd : List StockRow} {bls : BLSMap} {b : Board}
    {bs : BoardStat} {iU iD : ℤ}
    (h : processBoard sd bls b = .ok (some bs, iU, iD)) :
    bs = mkBoardStatMem (sd.filter (fun r => r.board == b)) (bls.get b) ∨
    bs = mkBoardStatBase (sd.filter (fun r => r.board == b)) := by
  unfold processBoard at h
  cases hbd : (sd.filter (fun r => r.board == b)).isEmpty with
  | true =>
    simp only [hbd, if_true] at h
    simp at h
  | false =>
    cases hg : gtTenInc (sd.filter (fun r => r.board == b)) (bls.get b) b with
    | error e =>
      simp only [hbd, hg] at h
      simp at h
    | ok inc =>
      cases hm : (bls.get b).memKey with
      | true =>
        simp only [hbd, hg, hm] at h
        rw [if_neg (by simp : ¬(false = true)), if_pos trivial] at h
        simp only [Except.ok.injEq, Prod.mk.injEq, Option.some.injEq] at h
        exact Or.inl h.1.symm
      | false =>
        simp only [hbd, hg, hm] at h
        rw [if_neg (by simp : ¬(false = true)), if_neg (by simp : ¬(false = true))] at h
        simp only [Except.ok.injEq, Prod.mk.injEq, Option.some.injEq] at h
        exact Or.inr h.1.symm

theorem processBoard_ok_bounds {sd : List StockRow} {bls : BLSMap} {b : Board}
    {bs : BoardStat} {iU iD : ℤ}
    (h : processBoard sd bls b = .ok (some bs, iU, iD)) :
    (0 ≤ bs.moneyEffect ∧ bs.moneyEffect ≤ 100) ∧
    (bs.total = 0 → bs.moneyEffect = 0) ∧
    ∀ er, bs.explodedRate = some er →
      (0 ≤ er ∧ er ≤ 100) ∧ (bs.zt.getD 0 + bs.zb.getD 0 = 0 → er = 0) := by
  rcases processBoard_ok_shape h with hbs | hbs <;> subst hbs
  · exact mkBoardStatMem_bounds _ _
  · exact mkBoardStatBase_bounds _

theorem roundMoneyEffect_zero (u d f : ℕ) (h : u + d + f = 0) :
    roundTo2 (moneyEffectCalc u d f) = 0 := by
  rw [moneyEffectCalc_zero_denom _ _ _ h, roundTo2_zero]

theorem mem_optEntry {b0 b : Board} {st : Option BoardStat} {bs : BoardStat}
    (h : (b, bs) ∈ optEntry b0 st) : st = some bs := by
  cases st with
  | none => simp [optEntry] at h
  | some a =>
    simp only [optEntry, List.mem_singleton, Prod.mk.injEq] at h
    rw [h.2]

/-- Percentage bounds for every record that the main body of
`get_market_stats` emits. -/
theorem marketStatsBody_bounds {sd : List StockRow} {s1 : LimitPoolsState}
    {s2 : LimitDownState} {ta : ℤ} {vr ic : ℚ} {rec : MarketStatsRecord}
    (h : marketStatsBody sd s1 s2 ta vr ic = some rec) :
    ((0 ≤ rec.moneyEffect ∧ rec.moneyEffect ≤ 100) ∧
      (0 ≤ rec.explodedRate ∧ rec.explodedRate ≤ 100) ∧
      (rec.upCount + rec.downCount + rec.flatCount = 0 → rec.moneyEffect = 0)) ∧
    ∀ b bs, (b, bs) ∈ rec.boardStats →
      (0 ≤ bs.moneyEffect ∧ bs.moneyEffect ≤ 100) ∧
      (bs.total = 0 → bs.moneyEffect = 0) ∧
      ∀ er, bs.explodedRate = some er →
        (0 ≤ er ∧ er ≤ 100) ∧ (bs.zt.getD 0 + bs.zb.getD 0 = 0 → er = 0) := by
  unfold marketStatsBody at h
  split at h
  · rename_i stM iU0 iD0 stS iU1 iD1 stG iU2 iD2 stB iU3 iD3 gtLD gtLU consec h1 h2 h3 h4 h5 h6 h7
    rw [Option.some.injEq] at h
    subst h
    refine ⟨⟨⟨roundTo2_nonneg (moneyEffectCalc_nonneg _ _ _),
      roundTo2_le_100 (moneyEffectCalc_le_100 _ _ _)⟩,
      ⟨roundTo2_nonneg (explodedRateCalc_nonneg _ _),
      roundTo2_le_100 (explodedRateCalc_le_100 _ _)⟩,
      fun h0 => roundMoneyEffect_zero _ _ _ h0⟩, ?_⟩
    intro b bs hmem
    replace hmem : (b, bs) ∈ optEntry Board.main stM ++ optEntry Board.sciTech stS
        ++ optEntry Board.growth stG ++ optEntry Board.beijing stB := hmem
    simp only [List.mem_append] at hmem
    rcases hmem with ((hm | hm) | hm) | hm
    · have hst := mem_optEntry hm
      subst hst
      exact processBoard_ok_bounds h1
    · have hst := mem_optEntry hm
      subst hst
      exact processBoard_ok_bounds h2
    · have hst := mem_optEntry hm
      subst hst
      exact processBoard_ok_bounds h3
    · have hst := mem_optEntry hm
      subst hst
      exact processBoard_ok_bounds h4
  all_goals simp at h

/-- A MainBoard snapshot row used in concrete evaluations. -/
def sampleRow : StockRow :=
  { code := "600000", name := "a", price := 10, pct := 1, low := 9, high := 11 }

/-- A MainBoard limit-up pool row (two consecutive limit-ups). -/
def sampleLimitUpRow : PoolRow := { code := "600100", consecutive := 2 }

/-- A MainBoard limit-down pool row. -/
def sampleLimitDownRow : PoolRow := { code := "000100", consecutive := 1 }

/-- C6: every record returned by `get_market_stats` has its money-effect
percentage (market-wide and per segment) and its exploded-rate percentage
(market-wide and per segment) in [0, 100]; when a denominator is zero
(stock count 0, or limit-up count plus exploded count 0) the guarded
expressions `moneyEffectCalc` and `explodedRateCalc` yield exactly 0
without executing the division, so no divide-by-zero or NaN can occur. -/
theorem get_market_stats_percentages_bounded
    (a0 a1 vr ic : ℚ) (sd : List StockRow) (fLU fEX fLD : Except Unit (List PoolRow))
    (rec : MarketStatsRecord)
    (h : get_market_stats a0 a1 vr ic sd fLU fEX fLD = some rec) :
    ((0 ≤ rec.moneyEffect ∧ rec.moneyEffect ≤ 100) ∧
      (0 ≤ rec.explodedRate ∧ rec.explodedRate ≤ 100) ∧
      (rec.upCount + rec.downCount + rec.flatCount = 0 → rec.moneyEffect = 0)) ∧
    (∀ b bs, (b, bs) ∈ rec.boardStats →
      (0 ≤ bs.moneyEffect ∧ bs.moneyEffect ≤ 100) ∧
      (bs.total = 0 → bs.moneyEffect = 0) ∧
      ∀ er, bs.explodedRate = some er →
        (0 ≤ er ∧ er ≤ 100) ∧ (bs.zt.getD 0 + bs.zb.getD 0 = 0 → er = 0)) ∧
    (∀ u d f : ℕ, u + d + f = 0 → moneyEffectCalc u d f = 0) ∧
    (∀ e l : ℕ, l + e = 0 → explodedRateCalc e l = 0) := by
  have hb : marketStatsBody sd (limitPoolsFetch fLU fEX)
      (limitDownFetch fLD (limitPoolsFetch fLU fEX).bls)
      (Int.fdiv (ratTrunc (a0 + a1)) (10 ^ 8)) vr ic = some rec := by
    unfold get_market_stats at h
    split at h
    · simp at h
    · exact h
  obtain ⟨hA, hB⟩ := marketStatsBody_bounds hb
  exact ⟨hA, hB, fun u d f h0 => moneyEffectCalc_zero_denom u d f h0,
    fun e l h0 => explodedRateCalc_zero_denom e l h0⟩

/-- The record `get_market_stats` produces on the small all-success input. -/
def sampleMarketRecord : MarketStatsRecord :=
  { totalAmount := 3, szChange := 1/2, szVolumeRatio := 1, upDownRate := "1(0)+0:1+0",
    limitUpCount := 1, nonMainLimitUp := 0, gtTenNotLimitUp := 0,
    limitDownCount := 1, nonMainLimitDown := 0, gtTenNotLimitDown := 0,
    consecutiveLimitUps := 1, upCount := 1, downCount := 0, flatCount := 0,
    moneyEffect := 100, explodedRate := 0,
    boardStats := [(Board.main,
      { total := 1, up := 1, down := 0, flat := 0, moneyEffect := 100,
        zt := some 1, zb := none, dt := some 1, explodedRate := some 0 })] }

/-- Witness for C6: the bounds theorem applied at a concrete successful
aggregation. -/
theorem get_market_stats_percentages_bounded_witness :
    (0 ≤ sampleMarketRecord.moneyEffect ∧ sampleMarketRecord.moneyEffect ≤ 100) ∧
    (0 ≤ sampleMarketRecord.explodedRate ∧ sampleMarketRecord.explodedRate ≤ 100) ∧
    (sampleMarketRecord.upCount + sampleMarketRecord.downCount + sampleMarketRecord.flatCount = 0 →
      sampleMarketRecord.moneyEffect = 0) :=
  (get_market_stats_percentages_bounded 200000000 100000000 1 (1/2) [sampleRow]
    (.ok [sampleLimitUpRow]) (.ok []) (.ok [sampleLimitDownRow]) sampleMarketRecord
    (by with_unfolding_all decide)).1

/-- C1: the claimed per-pool failure isolation fails on the code.  At a
non-empty snapshot with all other fetches succeeding, a limit-up pool
fetch failure makes the whole aggregation return the empty record (the
shared handler skips the assignment of `consecutive_limit_ups`, whose later
use at fetch_data.py:769 raises `NameError` into the outer handler); a
limit-down pool fetch failure does the same (unassigned
`greater_than_ten_of_limit_down` at line 754); only an exploded-pool
failure is isolated as claimed. -/
theorem get_market_stats_pool_failure_not_isolated :
    get_market_stats 200000000 100000000 1 (1/2) [sampleRow]
      (.error ()) (.ok []) (.ok [sampleLimitDownRow]) = none
    ∧ get_market_stats 200000000 100000000 1 (1/2) [sampleRow]
      (.ok [sampleLimitUpRow]) (.ok []) (.error ()) = none
    ∧ (get_market_stats 200000000 100000000 1 (1/2) [sampleRow]
      (.ok [sampleLimitUpRow]) (.error ()) (.ok [sampleLimitDownRow])).isSome = true := by
  with_unfolding_all decide

/-- After one call of the cache, the cached table is either unchanged or the
non-empty table the provider just delivered. -/
theorem get_stock_data_with_board_state_cached {st : CacheState} {force : Bool}
    {now : ℕ} {provider : Except Unit (List StockRow)} {t : List StockRow}
    (h : (get_stock_data_with_board st force now provider).state.cachedStockData = some t) :
    st.cachedStockData = some t ∨ ∃ d, provider = .ok d ∧ d ≠ [] ∧ t = d := by
  unfold get_stock_data_with_board at h
  split at h
  · exact Or.inl h
  · cases provider with
    | ok data =>
      cases hd : data.isEmpty with
      | true =>
        simp only [hd, if_true] at h
        exact Or.inl h
      | false =>
        simp only [hd] at h
        rw [if_neg (by simp : ¬(false = true))] at h
        simp only [Option.some.injEq] at h
        refine Or.inr ⟨data, rfl, ?_, h.symm⟩
        intro hnil
        rw [hnil] at hd
        simp at hd
    | error e =>
      cases hc : st.cachedStockData with
      | some c =>
        simp only [hc] at h
        exact Or.inl h
      | none =>
        simp only [hc] at h
        exact absurd h (by simp)

/-- A call whose provider outcome is a failure or an empty table leaves the
cached table unchanged. -/
theorem get_stock_data_with_board_state_cached_eq {st : CacheState} {force : Bool}
    {now : ℕ} {provider : Except Unit (List StockRow)}
    (hno : ∀ d, provider = .ok d → d = []) :
    (get_stock_data_with_board st force now provider).state.cachedStockData
      = st.cachedStockData := by
  unfold get_stock_data_with_board
  split
  · rfl
  · cases provider with
    | ok data =>
      have hd : data = [] := hno data rfl
      subst hd
      simp
    | error e =>
      cases hc : st.cachedStockData <;> simp [hc]

/-- Over a whole trace: a cached table can only be a non-empty table that
some call's provider delivered. -/
theorem runCalls_cached_inv (hist : List CallInput) (st : CacheState) (t : List StockRow)
    (h : (runCalls st hist).cachedStockData = some t) :
    st.cachedStockData = some t ∨ ∃ cl ∈ hist, ∃ d, cl.provider = .ok d ∧ d ≠ [] ∧ t = d := by
  induction hist generalizing st with
  | nil => exact Or.inl h
  | cons c cs ih =>
    rcases ih _ h with hstep | ⟨cl, hcl, d, hd, hne, ht⟩
    · rcases get_stock_data_with_board_state_cached hstep with h1 | ⟨d, hd, hne, ht⟩
      · exact Or.inl h1
      · exact Or.inr ⟨c, by simp, d, hd, hne, ht⟩
    · exact Or.inr ⟨cl, by simp [hcl], d, hd, hne, ht⟩

/-- Over a whole trace: if no call's provider ever delivered a non-empty
table, the cache stays empty. -/
theorem runCalls_cached_none (hist : List CallInput) (st : CacheState)
    (hst : st.cachedStockData = none)
    (hno : ∀ cl ∈ hist, ∀ d, cl.provider = .ok d → d = []) :
    (runCalls st hist).cachedStockData = none := by
  induction hist generalizing st with
  | nil => exact hst
  | cons c cs ih =>
    refine ih _ ?_ ?_
    · rw [get_stock_data_with_board_state_cached_eq (fun d hd => hno c (by simp) d hd)]
      exact hst
    · intro cl hcl d hd
      exact hno cl (by simp [hcl]) d hd

/-- C5 (amended): a provider failure never escapes `get_stock_data_with_board`
(the model is a total function); on a failing fetch the call returns the
cached table whenever one exists — regardless of its age — and the empty
table when none exists; and the cache holds a table exactly by virtue of
some earlier call whose provider delivered a non-empty table (a fetch that
succeeded with an EMPTY table is never cached). -/
theorem get_stock_data_with_board_failure_degrades
    (st : CacheState) (force : Bool) (now : ℕ) (hist : List CallInput) :
    (∀ c, st.cachedStockData = some c →
      (get_stock_data_with_board st force now (.error ())).data = c) ∧
    (st.cachedStockData = none →
      (get_stock_data_with_board st force now (.error ())).data = []) ∧
    (∀ t, (runCalls initCache hist).cachedStockData = some t →
      ∃ cl ∈ hist, ∃ d, cl.provider = .ok d ∧ d ≠ [] ∧ t = d) ∧
    ((∀ cl ∈ hist, ∀ d, cl.provider = .ok d → d = []) →
      (runCalls initCache hist).cachedStockData = none) := by
  refine ⟨?_, ?_, ?_, ?_⟩
  · intro c hc
    unfold get_stock_data_with_board
    split
    · simp [hc]
    · simp [hc]
  · intro hc
    unfold get_stock_data_with_board
    split
    · rename_i hcond
      rw [hc] at hcond
      simp at hcond
    · simp [hc]
  · intro t h
    rcases runCalls_cached_inv hist initCache t h with h1 | h1
    · simp [initCache] at h1
    · exact h1
  · intro hno
    exact runCalls_cached_none hist initCache rfl hno

/-- Witness for C5: the degradation theorem applied at a concrete state
holding a cached table, with a failing provider 400 seconds later. -/
theorem get_stock_data_with_board_failure_degrades_witness :
    (get_stock_data_with_board { cachedStockData := some [sampleRow], cacheTimestamp := some 0 }
      false 400 (.error ())).data = [sampleRow] :=
  (get_stock_data_with_board_failure_degrades
    { cachedStockData := some [sampleRow], cacheTimestamp := some 0 } false 400 []).1
    [sampleRow] rfl

/-- C5 counterexample: the claim as stated is false at this trace.  The
first call's provider fetch succeeds but delivers an empty table, which is
not cached; the second call's provider raises, and the call returns the
empty table even though a prior fetch did succeed — contradicting "an
empty table is returned only when no prior fetch ever succeeded". -/
theorem get_stock_data_with_board_empty_success_counterexample :
    ({ force := false, now := 0, provider := Except.ok ([] : List StockRow) } : CallInput).provider
      = Except.ok []
    ∧ (get_stock_data_with_board
        (runCalls initCache [{ force := false, now := 0, provider := Except.ok [] }])
        false 400 (.error ())).data = [] := by
  constructor
  · rfl
  · with_unfolding_all decide

/-- Cache state after one successful non-empty fetch at time 0. -/
def cacheAfterFirstFetch : CacheState :=
  (get_stock_data_with_board initCache false 0 (.ok [sampleRow])).state

/-- C2: the within-window half of the claim holds (a second call strictly
younger than 300 s returns the cached table with no provider call, and
`forceRefresh` or age 300 issues a new call), but the "300 seconds old or
older always issues a new provider call" half is false: the code tests
`(now - ts).seconds < 300`, i.e. the age MODULO 86400, so a call exactly
one day after the cached fetch (age 86400 ≥ 300) is served from the stale
cache with no provider call. -/
theorem get_stock_data_with_board_day_old_cache_served :
    (get_stock_data_with_board initCache false 0 (.ok [sampleRow])).providerCalled = true
    ∧ (get_stock_data_with_board cacheAfterFirstFetch false 100 (.ok [sampleRow])).providerCalled
        = false
    ∧ (get_stock_data_with_board cacheAfterFirstFetch false 100 (.ok [sampleRow])).data
        = [sampleRow]
    ∧ (get_stock_data_with_board cacheAfterFirstFetch true 100 (.ok [sampleRow])).providerCalled
        = true
    ∧ (get_stock_data_with_board cacheAfterFirstFetch false 300 (.ok [sampleRow])).providerCalled
        = true
    ∧ (get_stock_data_with_board cacheAfterFirstFetch false 86400 (.ok [sampleRow])).providerCalled
        = false
    ∧ (get_stock_data_with_board cacheAfterFirstFetch false 86400 (.ok [sampleRow])).data
        = [sampleRow] := by
  with_unfolding_all decide

/-- The declining rows of the snapshot sorted ascending by percent change:
`stock_data[stock_data['涨跌幅'] < 0].sort_values('涨跌幅')`
(fetch_data.py:941), as a stable sort. -/
def decliningSorted (stock_data : List StockRow) : List StockRow :=
  (stock_data.filter (fun r => decide (r.pct < 0))).mergeSort (fun a b => decide (a.pct ≤ b.pct))

/-- Embedding of `AShareAnalyzer.get_decline_analysis` (fetch_data.py:929-958).
The outer `none` is the empty record `{}` returned for an empty snapshot —
the 第60个跌幅股票 key is then absent; `some none` is the record whose
第60个跌幅股票 value is Python `None`; `some (some v)` carries
`declining_stocks.iloc[59]['涨跌幅']`. -/
def get_decline_analysis (stock_data : List StockRow) : Option (Option ℚ) :=
  if stock_data.isEmpty then none
  else if h : 60 ≤ (decliningSorted stock_data).length then
    some (some ((decliningSorted stock_data)[59].pct))
  else some none

theorem decliningSorted_sorted (sd : List StockRow) :
    List.Pairwise (fun a b => decide (a.pct ≤ b.pct) = true) (decliningSorted sd) := by
  apply List.sorted_mergeSort
  · intro a b c h1 h2
    simp only [decide_eq_true_eq] at h1 h2 ⊢
    exact le_trans h1 h2
  · intro a b
    simp only [Bool.or_eq_true, decide_eq_true_eq]
    exact le_total a.pct b.pct

theorem decliningSorted_perm (sd : List StockRow) :
    (decliningSorted sd).Perm (sd.filter (fun r => decide (r.pct < 0))) :=
  List.mergeSort_perm _ _

/-- In a list sorted ascending by `pct`, at least 60 elements are `≤` the
value at index 59 and at most 59 are strictly below it. -/
theorem sorted_getElem59_counts {l : List StockRow}
    (hs : List.Pairwise (fun a b => decide (a.pct ≤ b.pct) = true) l)
    (h59 : 59 < l.length) :
    60 ≤ l.countP (fun r => decide (r.pct ≤ l[59].pct)) ∧
    l.countP (fun r => decide (r.pct < l[59].pct)) ≤ 59 := by
  have hget : ∀ i j : ℕ, ∀ hi : i < l.length, ∀ hj : j < l.length, i < j →
      l[i].pct ≤ l[j].pct := by
    intro i j hi hj hij
    have h1 := List.pairwise_iff_getElem.mp hs i j hi hj hij
    simpa using h1
  obtain ⟨v, hv⟩ : ∃ v, l[59].pct = v := ⟨_, rfl⟩
  rw [hv]
  constructor
  · have hcnt : l.countP (fun r => decide (r.pct ≤ v))
        = (l.take 60).countP (fun r => decide (r.pct ≤ v))
          + (l.drop 60).countP (fun r => decide (r.pct ≤ v)) := by
      conv_lhs => rw [← List.take_append_drop 60 l]
      rw [List.countP_append]
    have hlen : (l.take 60).length = 60 := by
      rw [List.length_take]
      omega
    have htake : (l.take 60).countP (fun r => decide (r.pct ≤ v)) = (l.take 60).length := by
      rw [List.countP_eq_length]
      intro a ha
      rcases List.mem_iff_getElem.mp ha with ⟨n, hn, hna⟩
      have hn60 : n < 60 := by
        rw [hlen] at hn
        omega
      have hnl : n < l.length := by omega
      have hval : a = l[n] := by rw [← hna, List.getElem_take]
      subst hval
      simp only [decide_eq_true_eq]
      rw [← hv]
      rcases Nat.lt_or_ge n 59 with hn59 | hn59
      · exact hget n 59 hnl h59 hn59
      · have hn59e : n = 59 := by omega
        subst hn59e
        exact le_refl _
    omega
  · have hcnt : l.countP (fun r => decide (r.pct < v))
        = (l.take 59).countP (fun r => decide (r.pct < v))
          + (l.drop 59).countP (fun r => decide (r.pct < v)) := by
      conv_lhs => rw [← List.take_append_drop 59 l]
      rw [List.countP_append]
    have htake : (l.take 59).countP (fun r => decide (r.pct < v)) ≤ 59 :=
      le_trans (List.countP_le_length _) (List.length_take_le _ _)
    have hdrop : (l.drop 59).countP (fun r => decide (r.pct < v)) = 0 := by
      rw [List.countP_eq_zero]
      intro a ha
      rcases List.mem_iff_getElem.mp ha with ⟨m, hm, hma⟩
      have hml : 59 + m < l.length := by
        rw [List.length_drop] at hm
        omega
      have hval : a = l[59 + m] := by rw [← hma, List.getElem_drop]
      subst hval
      simp only [decide_eq_true_eq]
      rw [← hv]
      rcases Nat.eq_zero_or_pos m with hm0 | hm0
      · subst hm0
        exact lt_irrefl _
      · exact not_lt.mpr (hget 59 (59 + m) h59 hml (by omega))
    omega

/-- C7 counterexample: the claim as stated fails at the empty snapshot.
It has fewer than 60 declining rows, so the claim requires a null result,
but `get_decline_analysis` short-circuits to the empty record `{}` in which
the 第60个跌幅股票 key is absent altogether. -/
theorem get_decline_analysis_empty_counterexample :
    get_decline_analysis [] = none ∧ get_decline_analysis [] ≠ some none := by
  with_unfolding_all decide

/-- C7 (amended): for every non-empty snapshot, sorting the strictly
negative rows ascending: with at least 60 declining rows the result is the
entry at index 59 of that order — equivalently, a negative value such that
at least 60 declining rows are `≤` it and at most 59 are strictly below it —
and with fewer than 60 declining rows the result is the null value.  An
empty snapshot instead short-circuits to the empty record with no entry. -/
theorem get_decline_analysis_rank (sd : List StockRow) :
    (sd = [] → get_decline_analysis sd = none) ∧
    (sd ≠ [] → (get_decline_analysis sd = some none ↔
      sd.countP (fun r => decide (r.pct < 0)) < 60)) ∧
    (∀ v, get_decline_analysis sd = some (some v) →
      v < 0 ∧
      60 ≤ (sd.filter (fun r => decide (r.pct < 0))).countP (fun r => decide (r.pct ≤ v)) ∧
      (sd.filter (fun r => decide (r.pct < 0))).countP (fun r => decide (r.pct < v)) ≤ 59) := by
  have hlenD : (decliningSorted sd).length = (sd.filter (fun r => decide (r.pct < 0))).length :=
    (decliningSorted_perm sd).length_eq
  have hcountD : sd.countP (fun r => decide (r.pct < 0))
      = (sd.filter (fun r => decide (r.pct < 0))).length := List.countP_eq_length_filter _ _
  refine ⟨?_, ?_, ?_⟩
  · intro h
    subst h
    rfl
  · intro hne
    have hemp : sd.isEmpty = false := List.isEmpty_eq_false.mpr hne
    unfold get_decline_analysis
    rw [hemp]
    rw [if_neg (by simp : ¬(false = true))]
    by_cases h60 : 60 ≤ (decliningSorted sd).length
    · rw [dif_pos h60]
      constructor
      · intro hcontr
        exact absurd hcontr (by simp)
      · intro hcount
        exact absurd hcount (by omega)
    · rw [dif_neg h60]
      constructor
      · intro _
        omega
      · intro _
        rfl
  · intro v hv
    unfold get_decline_analysis at hv
    cases hemp : sd.isEmpty with
    | true =>
      rw [hemp, if_pos rfl] at hv
      cases hv
    | false =>
      rw [hemp] at hv
      rw [if_neg (by simp : ¬(false = true))] at hv
      by_cases h60 : 60 ≤ (decliningSorted sd).length
      · rw [dif_pos h60] at hv
        simp only [Option.some.injEq] at hv
        subst hv
        have h59 : 59 < (decliningSorted sd).length := by omega
        obtain ⟨h1, h2⟩ := sorted_getElem59_counts (decliningSorted_sorted sd) h59
        refine ⟨?_, ?_, ?_⟩
        · have hmem : (decliningSorted sd)[59] ∈ decliningSorted sd := List.getElem_mem _
          have hmem2 := (decliningSorted_perm sd).mem_iff.mp hmem
          have h3 := List.mem_filter.mp hmem2
          simpa using h3.2
        · rw [← (decliningSorted_perm sd).countP_eq]
          exact h1
        · rw [← (decliningSorted_perm sd).countP_eq]
          exact h2
      · rw [dif_neg h60] at hv
        simp at hv

/-- Witness for C7: the rank theorem applied at the one-row snapshot (zero
declining rows, null result) and at the empty snapshot (empty record). -/
theorem get_decline_analysis_rank_witness :
    get_decline_analysis [sampleRow] = some none ∧ get_decline_analysis [] = none :=
  ⟨((get_decline_analysis_rank [sampleRow]).2.1 (by simp)).mpr (by with_unfolding_all decide),
   (get_decline_analysis_rank []).1 rfl⟩

theorem roundInt2_le_half (x : ℚ) : (roundInt2 x : ℚ) ≤ x * 100 + 1/2 := by
  have hfl : (⌊x * 100⌋ : ℚ) ≤ x * 100 := Int.floor_le _
  have hfl2 : x * 100 < (⌊x * 100⌋ : ℚ) + 1 := Int.lt_floor_add_one _
  unfold roundInt2
  split
  · linarith
  · rename_i h1
    have h1r : (1:ℚ)/2 ≤ x * 100 - (⌊x * 100⌋ : ℚ) := not_lt.mp h1
    split
    · push_cast
      linarith
    · split
      · linarith
      · push_cast
        linarith

theorem roundInt2_ge_half (x : ℚ) : x * 100 - 1/2 ≤ (roundInt2 x : ℚ) := by
  have hfl : (⌊x * 100⌋ : ℚ) ≤ x * 100 := Int.floor_le _
  have hfl2 : x * 100 < (⌊x * 100⌋ : ℚ) + 1 := Int.lt_floor_add_one _
  unfold roundInt2
  split
  · rename_i h1
    linarith
  · rename_i h1
    split
    · push_cast
      linarith
    · rename_i h2
      have h2r : x * 100 - (⌊x * 100⌋ : ℚ) ≤ 1/2 := not_lt.mp h2
      split
      · linarith
      · push_cast
        linarith

/-- If the rounded value strictly exceeds a threshold whose hundredfold is
an integer, so does the raw value. -/
theorem lt_of_lt_roundTo2 {x t : ℚ} (n : ℤ) (hn : (n : ℚ) = t * 100)
    (h : t < roundTo2 x) : t < x := by
  have h1 : t * 100 < ((roundInt2 x : ℤ) : ℚ) := by
    unfold roundTo2 at h
    exact (lt_div_iff₀ (by norm_num : (0:ℚ) < 100)).mp h
  rw [← hn] at h1
  have h2 : n + 1 ≤ roundInt2 x := by exact_mod_cast h1
  have h3 : ((n : ℚ) + 1) ≤ ((roundInt2 x : ℤ) : ℚ) := by exact_mod_cast h2
  have h4 := roundInt2_le_half x
  have h5 : t * 100 + 1 ≤ x * 100 + 1/2 := by
    rw [← hn]
    linarith
  linarith

/-- If the rounded value is strictly below the negated threshold, so is the
raw value. -/
theorem lt_neg_of_roundTo2_lt {x t : ℚ} (n : ℤ) (hn : (n : ℚ) = t * 100)
    (h : roundTo2 x < -t) : x < -t := by
  have h1 : ((roundInt2 x : ℤ) : ℚ) < -t * 100 := by
    unfold roundTo2 at h
    have h2 := (div_lt_iff₀ (by norm_num : (0:ℚ) < 100)).mp h
    linarith
  have h2 : ((roundInt2 x : ℤ) : ℚ) < ((-n : ℤ) : ℚ) := by
    push_cast
    linarith [hn]
  have h3 : roundInt2 x ≤ -n - 1 := by
    have h4 : roundInt2 x < -n := by exact_mod_cast h2
    omega
  have h5 : ((roundInt2 x : ℤ) : ℚ) ≤ ((-n - 1 : ℤ) : ℚ) := by exact_mod_cast h3
  have h6 := roundInt2_ge_half x
  push_cast at h5
  have h7 : x * 100 ≤ -t * 100 - 1/2 := by linarith [hn]
  linarith

/-- pandas "sort by a column, keep the first five": a stable sort by `le`
followed by `take 5`; `nlargest(5, col)` and `nsmallest(5, col)` with
`keep='first'` are both of this form. -/
def sortTake5 {α : Type} (le : α → α → Bool) (l : List α) : List α :=
  (l.mergeSort le).take 5

theorem sortTake5_length_le {α : Type} (le : α → α → Bool) (l : List α) :
    (sortTake5 le l).length ≤ 5 :=
  List.length_take_le 5 (l.mergeSort le)

theorem sortTake5_subset {α : Type} {le : α → α → Bool} {l : List α} {x : α}
    (hx : x ∈ sortTake5 le l) : x ∈ l :=
  (List.mergeSort_perm l le).mem_iff.mp (List.Sublist.mem hx (List.take_sublist 5 _))

theorem sortTake5_pairwise {α : Type} {le : α → α → Bool} (l : List α)
    (htrans : ∀ a b c, le a b = true → le b c = true → le a c = true)
    (htot : ∀ a b, (le a b || le b a) = true) :
    List.Pairwise (fun a b => le a b = true) (sortTake5 le l) :=
  List.Pairwise.sublist (List.take_sublist 5 _) (List.sorted_mergeSort htrans htot l)

/-- Everything left out of the first five sorts no earlier than everything
kept: the five kept really are the top of the order. -/
theorem sortTake5_top {α : Type} {le : α → α → Bool} {l : List α} {x y : α}
    (htrans : ∀ a b c, le a b = true → le b c = true → le a c = true)
    (htot : ∀ a b, (le a b || le b a) = true)
    (hx : x ∈ l) (hnx : x ∉ sortTake5 le l) (hy : y ∈ sortTake5 le l) :
    le y x = true := by
  have hx2 : x ∈ l.mergeSort le := (List.mergeSort_perm l le).mem_iff.mpr hx
  rw [← List.take_append_drop 5 (l.mergeSort le)] at hx2
  rcases List.mem_append.mp hx2 with h | h
  · exact absurd h hnx
  · have hs := List.sorted_mergeSort htrans htot l
    rw [← List.take_append_drop 5 (l.mergeSort le)] at hs
    exact (List.pairwise_append.mp hs).2.2 y hy x h

/-- Key of the `get_intraday_extremes` result dictionary: the Python keys
are the strings `{板块}-收盘较最低涨幅前5(>{阈值}%)` and
`{板块}-收盘较最高跌幅前5(>{阈值}%)`, injective in (segment, direction). -/
inductive ExtKey where
  | gainers (b : Board)
  | losers (b : Board)
deriving DecidableEq, Repr

/-- Per-segment intraday move thresholds of `get_intraday_extremes`
(fetch_data.py:862-867). -/
def board_thresholds : Board → ℚ
  | .main => 15
  | .sciTech => 25
  | .growth => 25
  | .beijing => 35

/-- The 收盘较最低涨幅 column: `((最新价 - 最低) / 最低 * 100).round(2)`
(fetch_data.py:858). -/
def lowGain (r : StockRow) : ℚ := roundTo2 ((r.price - r.low) / r.low * 100)

/-- The 收盘较最高跌幅 column: `((最新价 - 最高) / 最高 * 100).round(2)`
(fetch_data.py:859). -/
def highLoss (r : StockRow) : ℚ := roundTo2 ((r.price - r.high) / r.high * 100)

/-- pandas `nlargest(5, col)` with the default `keep='first'`: stable
descending sort by the key, first five. -/
def nlargest5 (key : StockRow → ℚ) (l : List StockRow) : List StockRow :=
  sortTake5 (fun a b => decide (key b ≤ key a)) l

/-- pandas `nsmallest(5, col)` with the default `keep='first'`. -/
def nsmallest5 (key : StockRow → ℚ) (l : List StockRow) : List StockRow :=
  sortTake5 (fun a b => decide (key a ≤ key b)) l

/-- One iteration of the per-segment loop of `get_intraday_extremes`
(fetch_data.py:872-894): nothing for a segment with no snapshot rows
(`continue`), otherwise the gainers entry then the losers entry — each
present even when its filtered list is empty.  Stored values keep the row
together with its computed column. -/
def extremesForBoard (stock_data : List StockRow) (b : Board) :
    List (ExtKey × List (StockRow × ℚ)) :=
  let board_data := stock_data.filter (fun r => r.board == b)
  if board_data.isEmpty then []
  else
    [(ExtKey.gainers b,
      (nlargest5 lowGain (board_data.filter
        (fun r => decide (board_thresholds b < lowGain r)))).map (fun r => (r, lowGain r))),
     (ExtKey.losers b,
      (nsmallest5 highLoss (board_data.filter
        (fun r => decide (highLoss r < -(board_thresholds b))))).map (fun r => (r, highLoss r)))]

/-- Embedding of `AShareAnalyzer.get_intraday_extremes`
(fetch_data.py:846-900).  An empty snapshot returns the empty dictionary,
which coincides with the result of the loop over an empty table. -/
def get_intraday_extremes (stock_data : List StockRow) :
    List (ExtKey × List (StockRow × ℚ)) :=
  [Board.main, Board.sciTech, Board.growth, Board.beijing].flatMap (extremesForBoard stock_data)

/-- C3 counterexample: the claim as stated is false.  For a snapshot with
one MainBoard row qualifying in neither direction, the MainBoard segment is
NOT omitted from the result: both of its keys are present, mapped to empty
lists. -/
theorem get_intraday_extremes_empty_lists_counterexample :
    get_intraday_extremes [sampleRow]
      = [(ExtKey.gainers Board.main, []), (ExtKey.losers Board.main, [])]
    ∧ (ExtKey.gainers Board.main, ([] : List (StockRow × ℚ))) ∈ get_intraday_extremes [sampleRow] := by
  with_unfolding_all decide

theorem board_thresholds_hundred (b : Board) : ∃ n : ℤ, (n : ℚ) = board_thresholds b * 100 := by
  cases b
  · exact ⟨1500, by norm_num [board_thresholds]⟩
  · exact ⟨2500, by norm_num [board_thresholds]⟩
  · exact ⟨2500, by norm_num [board_thresholds]⟩
  · exact ⟨3500, by norm_num [board_thresholds]⟩

theorem descKey_trans (key : StockRow → ℚ) :
    ∀ a b c : StockRow, decide (key b ≤ key a) = true → decide (key c ≤ key b) = true →
      decide (key c ≤ key a) = true := by
  intro a b c h1 h2
  simp only [decide_eq_true_eq] at h1 h2 ⊢
  exact le_trans h2 h1

theorem descKey_total (key : StockRow → ℚ) :
    ∀ a b : StockRow, (decide (key b ≤ key a) || decide (key a ≤ key b)) = true := by
  intro a b
  simp only [Bool.or_eq_true, decide_eq_true_eq]
  exact le_total (key b) (key a)

theorem ascKey_trans (key : StockRow → ℚ) :
    ∀ a b c : StockRow, decide (key a ≤ key b) = true → decide (key b ≤ key c) = true →
      decide (key a ≤ key c) = true := by
  intro a b c h1 h2
  simp only [decide_eq_true_eq] at h1 h2 ⊢
  exact le_trans h1 h2

theorem ascKey_total (key : StockRow → ℚ) :
    ∀ a b : StockRow, (decide (key a ≤ key b) || decide (key b ≤ key a)) = true := by
  intro a b
  simp only [Bool.or_eq_true, decide_eq_true_eq]
  exact le_total (key a) (key b)

/-- Every entry of the extremes result is one of the two per-segment lists,
and the segment has snapshot rows. -/
theorem mem_get_intraday_extremes {sd : List StockRow} {k : ExtKey}
    {lst : List (StockRow × ℚ)} (h : (k, lst) ∈ get_intraday_extremes sd) :
    ∃ b, (sd.filter (fun r => r.board == b)).isEmpty = false ∧
      ((k = ExtKey.gainers b ∧
        lst = (nlargest5 lowGain ((sd.filter (fun r => r.board == b)).filter
          (fun r => decide (board_thresholds b < lowGain r)))).map (fun r => (r, lowGain r)))
      ∨ (k = ExtKey.losers b ∧
        lst = (nsmallest5 highLoss ((sd.filter (fun r => r.board == b)).filter
          (fun r => decide (highLoss r < -(board_thresholds b))))).map (fun r => (r, highLoss r)))) := by
  unfold get_intraday_extremes at h
  rcases List.mem_flatMap.mp h with ⟨b0, hb0, hmem⟩
  simp only [extremesForBoard] at hmem
  split at hmem
  · cases hmem
  · rename_i hcond
    refine ⟨b0, Bool.eq_false_iff.mpr hcond, ?_⟩
    rcases List.mem_cons.mp hmem with h1 | h1
    · rw [Prod.mk.injEq] at h1
      exact Or.inl h1
    · rcases List.mem_cons.mp h1 with h2 | h2
      · rw [Prod.mk.injEq] at h2
        exact Or.inr h2
      · cases h2

/-- The two per-segment entries are present whenever the segment has
snapshot rows. -/
theorem extremesForBoard_keys_present {sd : List StockRow} {b : Board}
    (hemp : (sd.filter (fun r => r.board == b)).isEmpty = false) :
    (ExtKey.gainers b,
      (nlargest5 lowGain ((sd.filter (fun r => r.board == b)).filter
        (fun r => decide (board_thresholds b < lowGain r)))).map (fun r => (r, lowGain r)))
      ∈ get_intraday_extremes sd ∧
    (ExtKey.losers b,
      (nsmallest5 highLoss ((sd.filter (fun r => r.board == b)).filter
        (fun r => decide (highLoss r < -(board_thresholds b))))).map (fun r => (r, highLoss r)))
      ∈ get_intraday_extremes sd := by
  have hb : b ∈ [Board.main, Board.sciTech, Board.growth, Board.beijing] := by
    cases b <;> simp
  constructor
  · refine List.mem_flatMap.mpr ⟨b, hb, ?_⟩
    simp [extremesForBoard, hemp]
  · refine List.mem_flatMap.mpr ⟨b, hb, ?_⟩
    simp [extremesForBoard, hemp]

/-- C3 (amended): for every snapshot whose rows have positive intraday low
and high (the domain on which exact-arithmetic division models the pandas
column; a zero denominator would produce an infinity in pandas), every
per-segment direction list of `get_intraday_extremes` holds at most 5
entries, each a snapshot row of that segment whose rounded move column and
whose raw move `(close-low)/low*100` (resp. `(close-high)/high*100`) exceed
the segment threshold (resp. fall below its negation), ranked by magnitude
(descending for gainers, ascending for losers), and every qualifying row
left out ranks no better than every row kept.  A segment's two keys are
present exactly when the segment has snapshot rows — so a segment with rows
but no qualifying rows in a direction is present with an EMPTY list, not
omitted. -/
theorem get_intraday_extremes_spec (sd : List StockRow)
    (hpos : ∀ r ∈ sd, 0 < r.low ∧ 0 < r.high) :
    (∀ b lst, (ExtKey.gainers b, lst) ∈ get_intraday_extremes sd →
      lst.length ≤ 5 ∧
      List.Pairwise (fun p q : StockRow × ℚ => q.2 ≤ p.2) lst ∧
      (∀ p ∈ lst, p.1 ∈ sd ∧ p.1.board = b ∧ p.2 = lowGain p.1 ∧
        board_thresholds b < lowGain p.1 ∧
        board_thresholds b < (p.1.price - p.1.low) / p.1.low * 100) ∧
      (∀ r ∈ sd, r.board = b → board_thresholds b < lowGain r →
        (∀ p ∈ lst, p.1 ≠ r) → ∀ p ∈ lst, lowGain r ≤ p.2)) ∧
    (∀ b lst, (ExtKey.losers b, lst) ∈ get_intraday_extremes sd →
      lst.length ≤ 5 ∧
      List.Pairwise (fun p q : StockRow × ℚ => p.2 ≤ q.2) lst ∧
      (∀ p ∈ lst, p.1 ∈ sd ∧ p.1.board = b ∧ p.2 = highLoss p.1 ∧
        highLoss p.1 < -(board_thresholds b) ∧
        (p.1.price - p.1.high) / p.1.high * 100 < -(board_thresholds b)) ∧
      (∀ r ∈ sd, r.board = b → highLoss r < -(board_thresholds b) →
        (∀ p ∈ lst, p.1 ≠ r) → ∀ p ∈ lst, p.2 ≤ highLoss r)) ∧
    (∀ b, (∃ lst, (ExtKey.gainers b, lst) ∈ get_intraday_extremes sd) ↔
      ∃ r ∈ sd, r.board = b) ∧
    (∀ b, (∃ lst, (ExtKey.losers b, lst) ∈ get_intraday_extremes sd) ↔
      ∃ r ∈ sd, r.board = b) := by
  refine ⟨?_, ?_, ?_, ?_⟩
  · intro b lst hmem
    rcases mem_get_intraday_extremes hmem with ⟨b0, hemp, hdis⟩
    rcases hdis with ⟨hk, hlst⟩ | ⟨hk, hlst⟩
    · injection hk with hb
      subst hb
      subst hlst
      refine ⟨?_, ?_, ?_, ?_⟩
      · rw [List.length_map]
        exact sortTake5_length_le _ _
      · rw [List.pairwise_map]
        refine List.Pairwise.imp ?_
          (sortTake5_pairwise _ (descKey_trans lowGain) (descKey_total lowGain))
        intro a c h
        exact decide_eq_true_eq.mp h
      · intro p hp
        rcases List.mem_map.mp hp with ⟨r, hrL, hpr⟩
        subst hpr
        have hrF := sortTake5_subset hrL
        rcases List.mem_filter.mp hrF with ⟨hrB, hrg⟩
        rcases List.mem_filter.mp hrB with ⟨hrsd, hrb⟩
        have hgain := decide_eq_true_eq.mp hrg
        rcases board_thresholds_hundred b with ⟨n, hn⟩
        exact ⟨hrsd, beq_iff_eq.mp hrb, rfl, hgain, lt_of_lt_roundTo2 n hn hgain⟩
      · intro r hrsd hrb hrg hnot p hp
        rcases List.mem_map.mp hp with ⟨y, hyL, hpy⟩
        subst hpy
        have hrF : r ∈ (sd.filter (fun x => x.board == b)).filter
            (fun x => decide (board_thresholds b < lowGain x)) :=
          List.mem_filter.mpr ⟨List.mem_filter.mpr ⟨hrsd, beq_iff_eq.mpr hrb⟩,
            decide_eq_true_eq.mpr hrg⟩
        have hnr : r ∉ nlargest5 lowGain ((sd.filter (fun x => x.board == b)).filter
            (fun x => decide (board_thresholds b < lowGain x))) := by
          intro hrL
          exact hnot (r, lowGain r) (List.mem_map.mpr ⟨r, hrL, rfl⟩) rfl
        exact decide_eq_true_eq.mp
          (sortTake5_top (descKey_trans lowGain) (descKey_total lowGain) hrF hnr hyL)
    · exact ExtKey.noConfusion hk
  · intro b lst hmem
    rcases mem_get_intraday_extremes hmem with ⟨b0, hemp, hdis⟩
    rcases hdis with ⟨hk, hlst⟩ | ⟨hk, hlst⟩
    · exact ExtKey.noConfusion hk
    · injection hk with hb
      subst hb
      subst hlst
      refine ⟨?_, ?_, ?_, ?_⟩
      · rw [List.length_map]
        exact sortTake5_length_le _ _
      · rw [List.pairwise_map]
        refine List.Pairwise.imp ?_
          (sortTake5_pairwise _ (ascKey_trans highLoss) (ascKey_total highLoss))
        intro a c h
        exact decide_eq_true_eq.mp h
      · intro p hp
        rcases List.mem_map.mp hp with ⟨r, hrL, hpr⟩
        subst hpr
        have hrF := sortTake5_subset hrL
        rcases List.mem_filter.mp hrF with ⟨hrB, hrg⟩
        rcases List.mem_filter.mp hrB with ⟨hrsd, hrb⟩
        have hloss := decide_eq_true_eq.mp hrg
        rcases board_thresholds_hundred b with ⟨n, hn⟩
        exact ⟨hrsd, beq_iff_eq.mp hrb, rfl, hloss, lt_neg_of_roundTo2_lt n hn hloss⟩
      · intro r hrsd hrb hrg hnot p hp
        rcases List.mem_map.mp hp with ⟨y, hyL, hpy⟩
        subst hpy
        have hrF : r ∈ (sd.filter (fun x => x.board == b)).filter
            (fun x => decide (highLoss x < -(board_thresholds b))) :=
          List.mem_filter.mpr ⟨List.mem_filter.mpr ⟨hrsd, beq_iff_eq.mpr hrb⟩,
            decide_eq_true_eq.mpr hrg⟩
        have hnr : r ∉ nsmallest5 highLoss ((sd.filter (fun x => x.board == b)).filter
            (fun x => decide (highLoss x < -(board_thresholds b)))) := by
          intro hrL
          exact hnot (r, highLoss r) (List.mem_map.mpr ⟨r, hrL, rfl⟩) rfl
        exact decide_eq_true_eq.mp
          (sortTake5_top (ascKey_trans highLoss) (ascKey_total highLoss) hrF hnr hyL)
  · intro b
    constructor
    · rintro ⟨lst, hmem⟩
      rcases mem_get_intraday_extremes hmem with ⟨b0, hemp, hdis⟩
      have hb0 : b0 = b := by
        rcases hdis with ⟨hk, -⟩ | ⟨hk, -⟩
        · injection hk with h
          exact h.symm
        · exact ExtKey.noConfusion hk
      subst hb0
      rcases List.exists_mem_of_ne_nil _ (List.isEmpty_eq_false.mp hemp) with ⟨r, hr⟩
      rcases List.mem_filter.mp hr with ⟨hrsd, hrb⟩
      exact ⟨r, hrsd, beq_iff_eq.mp hrb⟩
    · rintro ⟨r, hrsd, hrb⟩
      have hemp : (sd.filter (fun x => x.board == b)).isEmpty = false := by
        rw [List.isEmpty_eq_false]
        intro hnil
        have hmem : r ∈ sd.filter (fun x => x.board == b) :=
          List.mem_filter.mpr ⟨hrsd, beq_iff_eq.mpr hrb⟩
        rw [hnil] at hmem
        cases hmem
      exact ⟨_, (extremesForBoard_keys_present hemp).1⟩
  · intro b
    constructor
    · rintro ⟨lst, hmem⟩
      rcases mem_get_intraday_extremes hmem with ⟨b0, hemp, hdis⟩
      have hb0 : b0 = b := by
        rcases hdis with ⟨hk, -⟩ | ⟨hk, -⟩
        · exact ExtKey.noConfusion hk
        · injection hk with h
          exact h.symm
      subst hb0
      rcases List.exists_mem_of_ne_nil _ (List.isEmpty_eq_false.mp hemp) with ⟨r, hr⟩
      rcases List.mem_filter.mp hr with ⟨hrsd, hrb⟩
      exact ⟨r, hrsd, beq_iff_eq.mp hrb⟩
    · rintro ⟨r, hrsd, hrb⟩
      have hemp : (sd.filter (fun x => x.board == b)).isEmpty = false := by
        rw [List.isEmpty_eq_false]
        intro hnil
        have hmem : r ∈ sd.filter (fun x => x.board == b) :=
          List.mem_filter.mpr ⟨hrsd, beq_iff_eq.mpr hrb⟩
        rw [hnil] at hmem
        cases hmem
      exact ⟨_, (extremesForBoard_keys_present hemp).2⟩

/-- A MainBoard row closing 50% above its intraday low. -/
def extGainRow : StockRow :=
  { code := "600001", name := "b", price := 12, pct := 2, low := 8, high := 12 }

/-- Witness for C3: the extremes theorem applied at a one-row snapshot whose
row qualifies as a gainer. -/
theorem get_intraday_extremes_spec_witness :
    ([((extGainRow : StockRow), (50 : ℚ))] : List (StockRow × ℚ)).length ≤ 5 :=
  ((get_intraday_extremes_spec [extGainRow]
    (by
      intro r hr
      rw [List.mem_singleton] at hr
      subst hr
      exact ⟨by norm_num [extGainRow], by norm_num [extGainRow]⟩)).1
    Board.main [(extGainRow, 50)] (by with_unfolding_all decide)).1

/-- A value of a persisted record field: Python `None`, a number, or a
string (kept as its character sequence). -/
inductive JVal where
  | null
  | num (q : ℚ)
  | str (s : List Char)
deriving DecidableEq, Repr

/-- Python `value.replace(c, '')` for a one-character pattern: removal of
every occurrence of that character. -/
def removeChar (cs : List Char) (c : Char) : List Char :=
  cs.filter (fun a => a != c)

/-- Numeric value of a decimal digit character. -/
def digitVal (c : Char) : ℕ := c.toNat - 48

/-- Natural number denoted by a digit list, 0 for the empty list. -/
def digitsToNat (cs : List Char) : ℕ :=
  cs.foldl (fun acc c => acc * 10 + digitVal c) 0

/-- Unsigned part of the Python `float(s)` model: decimal digits with an
optional fractional part (`"12"`, `"12."`, `"12.5"`, `".5"`); the empty
string, a bare `"."` and any non-digit character fail. -/
def parseUnsigned (cs : List Char) : Option ℚ :=
  if (cs.dropWhile (fun c => c.isDigit)).isEmpty then
    if (cs.takeWhile (fun c => c.isDigit)).isEmpty then none
    else some (digitsToNat (cs.takeWhile (fun c => c.isDigit)))
  else if (cs.dropWhile (fun c => c.isDigit)).headD ' ' = '.' then
    if ((cs.dropWhile (fun c => c.isDigit)).tail.all (fun c => c.isDigit)
        && (!(cs.takeWhile (fun c => c.isDigit)).isEmpty
          || !(cs.dropWhile (fun c => c.isDigit)).tail.isEmpty)) then
      some ((digitsToNat (cs.takeWhile (fun c => c.isDigit)) : ℚ)
        + (digitsToNat ((cs.dropWhile (fun c => c.isDigit)).tail) : ℚ)
          / (10 : ℚ) ^ ((cs.dropWhile (fun c => c.isDigit)).tail).length)
    else none
  else none

/-- Modelled subset of Python `float(s)`: an optional single sign followed
by the unsigned decimal form.  (`float` also accepts inf/nan, exponents,
underscores and surrounding whitespace; those forms never arise from this
repository's persisted data and are outside the model.) -/
def parseFloat (cs : List Char) : Option ℚ :=
  if cs.headD ' ' = '-' then (parseUnsigned cs.tail).map (fun m => -m)
  else if cs.headD ' ' = '+' then parseUnsigned cs.tail
  else parseUnsigned cs

/-- Embedding of `safe_extract_number` (fetch_data.py:377-400): `None`
yields the default, numbers pass through, and a string is parsed after
stripping every `%` (checked first) or every `亿`; a parse failure yields
the default.  Total by construction — no exception escapes. -/
def safe_extract_number (v : JVal) (default : ℚ) : ℚ :=
  match v with
  | .null => default
  | .num q => q
  | .str s =>
    if s.contains '%' then (parseFloat (removeChar s '%')).getD default
    else if s.contains '亿' then (parseFloat (removeChar s '亿')).getD default
    else (parseFloat s).getD default

theorem parseUnsigned_chars {cs : List Char} {q : ℚ} (h : parseUnsigned cs = some q) :
    ∀ c ∈ cs, c.isDigit = true ∨ c = '.' := by
  intro c hc
  unfold parseUnsigned at h
  rw [← List.takeWhile_append_dropWhile (fun ch => ch.isDigit) cs] at hc
  rcases List.mem_append.mp hc with h1 | h1
  · exact Or.inl (List.mem_takeWhile_imp h1)
  · split at h
    · rename_i hemp
      rw [List.isEmpty_iff.mp hemp] at h1
      cases h1
    · split at h
      · rename_i hemp hdot
        split at h
        · rename_i hcond
          have hall := (Bool.and_eq_true _ _).mp hcond |>.1
          cases hrest : cs.dropWhile (fun ch => ch.isDigit) with
          | nil =>
            rw [hrest] at h1
            cases h1
          | cons hd tl =>
            rw [hrest] at h1 hdot hall
            simp only [List.headD] at hdot
            simp only [List.tail] at hall
            rcases List.mem_cons.mp h1 with h2 | h2
            · exact Or.inr (h2.trans hdot)
            · exact Or.inl (List.all_eq_true.mp hall c h2)
        · cases h
      · cases h

theorem parseFloat_chars {cs : List Char} {q : ℚ} (h : parseFloat cs = some q) :
    ∀ c ∈ cs, c.isDigit = true ∨ c = '.' ∨ c = '-' ∨ c = '+' := by
  intro c hc
  unfold parseFloat at h
  cases cs with
  | nil => cases hc
  | cons hd tl =>
    simp only [List.headD, List.tail] at h
    rcases List.mem_cons.mp hc with h1 | h1
    · subst h1
      by_cases hm : c = '-'
      · exact Or.inr (Or.inr (Or.inl hm))
      · by_cases hp : c = '+'
        · exact Or.inr (Or.inr (Or.inr hp))
        · rw [if_neg hm, if_neg hp] at h
          rcases parseUnsigned_chars h c (List.mem_cons_self c tl) with h2 | h2
          · exact Or.inl h2
          · exact Or.inr (Or.inl h2)
    · by_cases hm : hd = '-'
      · rw [if_pos hm] at h
        rcases Option.map_eq_some'.mp h with ⟨m, hm2, -⟩
        rcases parseUnsigned_chars hm2 c h1 with h2 | h2
        · exact Or.inl h2
        · exact Or.inr (Or.inl h2)
      · by_cases hp : hd = '+'
        · rw [if_neg hm, if_pos hp] at h
          rcases parseUnsigned_chars h c h1 with h2 | h2
          · exact Or.inl h2
          · exact Or.inr (Or.inl h2)
        · rw [if_neg hm, if_neg hp] at h
          rcases parseUnsigned_chars h c (List.mem_cons_of_mem hd h1) with h2 | h2
          · exact Or.inl h2
          · exact Or.inr (Or.inl h2)

/-- A string that parses as a number contains neither `%` nor `亿`. -/
theorem parseFloat_no_decoration {cs : List Char} {q : ℚ} (h : parseFloat cs = some q) :
    '%' ∉ cs ∧ '亿' ∉ cs := by
  constructor
  · intro hm
    rcases parseFloat_chars h _ hm with h1 | h1 | h1 | h1 <;> revert h1 <;> decide
  · intro hm
    rcases parseFloat_chars h _ hm with h1 | h1 | h1 | h1 <;> revert h1 <;> decide

/-- Reading back a parseable decimal string with a trailing `%` recovers
the number exactly. -/
theorem safe_extract_pct_roundtrip {s : List Char} {q : ℚ} (d : ℚ)
    (h : parseFloat s = some q) :
    safe_extract_number (.str (s ++ ['%'])) d = q := by
  have hno := parseFloat_no_decoration h
  have hcont : (s ++ ['%']).contains '%' = true := by simp
  have hrm : removeChar (s ++ ['%']) '%' = s := by
    unfold removeChar
    rw [List.filter_append]
    have h1 : s.filter (fun a => a != '%') = s :=
      List.filter_eq_self.mpr (fun a ha => bne_iff_ne.mpr (fun he => hno.1 (he ▸ ha)))
    have h2 : (['%'] : List Char).filter (fun a => a != '%') = [] := rfl
    rw [h1, h2, List.append_nil]
  simp only [safe_extract_number]
  rw [if_pos hcont, hrm, h]
  rfl

/-- Reading back a parseable decimal string with a trailing `亿` recovers
the number exactly. -/
theorem safe_extract_amount_roundtrip {s : List Char} {q : ℚ} (d : ℚ)
    (h : parseFloat s = some q) :
    safe_extract_number (.str (s ++ ['亿'])) d = q := by
  have hno := parseFloat_no_decoration h
  have hcontp : (s ++ ['亿']).contains '%' = false := by
    simp [hno.1, (by decide : ('%' : Char) ≠ '亿')]
  have hcont : (s ++ ['亿']).contains '亿' = true := by simp
  have hrm : removeChar (s ++ ['亿']) '亿' = s := by
    unfold removeChar
    rw [List.filter_append]
    have h1 : s.filter (fun a => a != '亿') = s :=
      List.filter_eq_self.mpr (fun a ha => bne_iff_ne.mpr (fun he => hno.2 (he ▸ ha)))
    have h2 : (['亿'] : List Char).filter (fun a => a != '亿') = [] := rfl
    rw [h1, h2, List.append_nil]
  simp only [safe_extract_number]
  rw [if_neg (by simp [hno.1, (by decide : ('%' : Char) ≠ '亿')]), if_pos hcont, hrm, h]
  rfl

/-- A `%`-decorated string that does not parse after stripping coerces to
the default, without raising. -/
theorem safe_extract_unparseable {s : List Char} (d : ℚ)
    (h1 : s.contains '%' = true) (h2 : parseFloat (removeChar s '%') = none) :
    safe_extract_number (.str s) d = d := by
  simp only [safe_extract_number]
  rw [if_pos h1, h2]
  rfl

/-- The two sections of a persisted daily record that the historical
summary reads: `results.get('市场统计', {})` and
`results.get('昨日涨停股表现', {})`.  An absent section is the empty
association list, exactly the `{}` default. -/
structure DayRecord where
  marketStats : List (String × JVal)
  yesterdayPerf : List (String × JVal)
deriving DecidableEq, Repr

/-- Python `d.get(k, default)` on a dictionary modelled as an association
list. -/
def dictGetD (m : List (String × JVal)) (k : String) (d : JVal) : JVal :=
  ((m.find? (fun p => p.1 == k)).map Prod.snd).getD d

/-- Python `k in d`. -/
def containsKey (m : List (String × JVal)) (k : String) : Bool :=
  m.any (fun p => p.1 == k)

/-- `market_stats.get(key, 0)` fed to `safe_extract_number` with default 0
(fetch_data.py:404-415). -/
def getNum (m : List (String × JVal)) (k : String) : ℚ :=
  safe_extract_number (dictGetD m k (.num 0)) 0

/-- `bool(market_stats and any(k in market_stats for k in [涨停数量,
跌停数量, 赚钱效应]))` (fetch_data.py:369). -/
def has_market_data (ms : List (String × JVal)) : Bool :=
  !ms.isEmpty && (containsKey ms "涨停数量" || containsKey ms "跌停数量"
    || containsKey ms "赚钱效应")

/-- `bool(yesterday_perf and '昨日涨停股数量' in yesterday_perf)`
(fetch_data.py:372). -/
def has_yesterday_data (yp : List (String × JVal)) : Bool :=
  !yp.isEmpty && containsKey yp "昨日涨停股数量"

/-- One `day_summary` entry (fetch_data.py:402-417).  `date` is the offset
in days back from today (the code stores the formatted date string of
`base_date - timedelta(days=i)`, injective in the offset). -/
structure DaySummary where
  date : ℕ
  limit_up_count : ℚ
  limit_down_count : ℚ
  up_down_ratio : JVal
  total_amount : ℚ
  sz_amount_rate : ℚ
  sz_index_change : ℚ
  money_effect : ℚ
  exploded_rate : ℚ
  yesterday_limit_count : ℚ
  yesterday_avg_perf : ℚ
  yesterday_up_ratio : ℚ
  exploded_avg_perf : ℚ
  has_valid_data : Bool
deriving DecidableEq, Repr

/-- The `day_summary` dictionary built at fetch_data.py:402-417. -/
def mkDaySummary (i : ℕ) (r : DayRecord) : DaySummary :=
  { date := i,
    limit_up_count := getNum r.marketStats "涨停数量",
    limit_down_count := getNum r.marketStats "跌停数量",
    up_down_ratio := dictGetD r.marketStats "涨跌停比" (.str "N/A".data),
    total_amount := getNum r.marketStats "总成交额",
    sz_amount_rate := getNum r.marketStats "上证量比",
    sz_index_change := getNum r.marketStats "上证指数涨幅",
    money_effect := getNum r.marketStats "赚钱效应",
    exploded_rate := getNum r.marketStats "炸板率",
    yesterday_limit_count := getNum r.yesterdayPerf "昨日涨停股数量",
    yesterday_avg_perf := getNum r.yesterdayPerf "今日平均表现",
    yesterday_up_ratio := getNum r.yesterdayPerf "今日上涨比例",
    exploded_avg_perf := getNum r.yesterdayPerf "昨日炸板股今日平均",
    has_valid_data := has_market_data r.marketStats && has_yesterday_data r.yesterdayPerf }

/-- One iteration body of the `get_historical_summary` loop
(fetch_data.py:363-418): a missing/invalid record (`none`), or a record
with neither valid section, produces no entry; otherwise the day summary. -/
def mkEntry (i : ℕ) (data : Option DayRecord) : Option DaySummary :=
  match data with
  | none => none
  | some r =>
    if has_market_data r.marketStats || has_yesterday_data r.yesterdayPerf then
      some (mkDaySummary i r)
    else none

/-- The record consulted for offset `i`: for today (offset 0) a truthy
`current_results` takes precedence over the store (fetch_data.py:356-361). -/
def effLoad (currentResults : Option DayRecord) (load : ℕ → Option DayRecord)
    (i : ℕ) : Option DayRecord :=
  if i = 0 then
    match currentResults with
    | some c => some c
    | none => load 0
  else load i

/-- The search loop of `get_historical_summary` (fetch_data.py:350-418)
over the remaining offsets, with `remaining` the number of further entries
wanted (`max_days - len(summary)`); the loop breaks as soon as it is 0. -/
def summaryLoop (currentResults : Option DayRecord) (load : ℕ → Option DayRecord) :
    ℕ → List ℕ → List DaySummary
  | _, [] => []
  | remaining, i :: is =>
    if remaining = 0 then []
    else
      match mkEntry i (effLoad currentResults load i) with
      | some e => e :: summaryLoop currentResults load (remaining - 1) is
      | none => summaryLoop currentResults load remaining is

/-- Embedding of `AShareAnalyzer.get_historical_summary`
(fetch_data.py:343-421): walk offsets 0..29 (today backward over at most
30 calendar days), collecting at most `max_days` valid entries. -/
def get_historical_summary (max_days : ℕ) (currentResults : Option DayRecord)
    (load : ℕ → Option DayRecord) : List DaySummary :=
  summaryLoop currentResults load max_days (List.range 30)

/-- The collect-with-early-break loop is filter-then-take. -/
theorem summaryLoop_eq (cur : Option DayRecord) (load : ℕ → Option DayRecord)
    (l : List ℕ) (n : ℕ) :
    summaryLoop cur load n l = (l.filterMap (fun i => mkEntry i (effLoad cur load i))).take n := by
  induction l generalizing n with
  | nil => simp [summaryLoop]
  | cons i is ih =>
    cases n with
    | zero => simp [summaryLoop]
    | succ m =>
      rw [summaryLoop, if_neg (by omega)]
      cases hE : mkEntry i (effLoad cur load i) with
      | some e => simp [List.filterMap_cons, hE, ih, List.take_succ_cons]
      | none => simp [List.filterMap_cons, hE, ih]

theorem mkEntry_date {i : ℕ} {d : Option DayRecord} {e : DaySummary}
    (h : mkEntry i d = some e) :
    e.date = i ∧ ∃ r, d = some r ∧
      (has_market_data r.marketStats || has_yesterday_data r.yesterdayPerf) = true ∧
      e = mkDaySummary i r := by
  cases d with
  | none => cases h
  | some r =>
    simp only [mkEntry] at h
    split at h
    · rename_i hval
      rw [Option.some.injEq] at h
      subst h
      exact ⟨rfl, r, rfl, hval, rfl⟩
    · cases h

theorem containsKey_ne_nil {m : List (String × JVal)} {k : String}
    (h : containsKey m k = true) : m.isEmpty = false := by
  rcases List.any_eq_true.mp h with ⟨p, hp, -⟩
  cases m with
  | nil => cases hp
  | cons a l => rfl

/-- C4: `get_historical_summary` walks offsets 0..29 backward from today,
keeps exactly the valid records in offset order, and stops after `max_days`
entries: it equals filter-the-valid-days-then-take-`max_days`.  Hence at
most `max_days` entries; every entry comes from a valid record at its
offset within the 30-day window (invalid or missing days consume no slot
and do not appear); entries are ordered most-recent first (strictly
increasing offsets); and a record is valid iff it carries at least one of
the three market-stats keys or the previous-day-performance count key. -/
theorem get_historical_summary_spec (max_days : ℕ) (cur : Option DayRecord)
    (load : ℕ → Option DayRecord) :
    get_historical_summary max_days cur load
      = ((List.range 30).filterMap (fun i => mkEntry i (effLoad cur load i))).take max_days ∧
    (get_historical_summary max_days cur load).length ≤ max_days ∧
    (∀ e ∈ get_historical_summary max_days cur load, e.date < 30 ∧
      ∃ r, effLoad cur load e.date = some r ∧
        (has_market_data r.marketStats || has_yesterday_data r.yesterdayPerf) = true ∧
        e = mkDaySummary e.date r) ∧
    List.Pairwise (fun a b : DaySummary => a.date < b.date)
      (get_historical_summary max_days cur load) ∧
    (∀ r : DayRecord,
      (has_market_data r.marketStats || has_yesterday_data r.yesterdayPerf) = true
      ↔ (containsKey r.marketStats "涨停数量" || containsKey r.marketStats "跌停数量"
        || containsKey r.marketStats "赚钱效应"
        || containsKey r.yesterdayPerf "昨日涨停股数量") = true) := by
  have heq2 : get_historical_summary max_days cur load
      = ((List.range 30).filterMap (fun i => mkEntry i (effLoad cur load i))).take max_days :=
    summaryLoop_eq cur load (List.range 30) max_days
  refine ⟨heq2, ?_, ?_, ?_, ?_⟩
  · rw [heq2]
    exact List.length_take_le _ _
  · intro e he
    rw [heq2] at he
    have he2 := List.Sublist.mem he (List.take_sublist _ _)
    rcases List.mem_filterMap.mp he2 with ⟨i, hi, hEi⟩
    rcases mkEntry_date hEi with ⟨hdate, r, hr, hval, herec⟩
    rw [hdate]
    exact ⟨List.mem_range.mp hi, r, hr, hval, herec⟩
  · rw [heq2]
    refine List.Pairwise.sublist (List.take_sublist _ _) ?_
    rw [List.pairwise_filterMap]
    refine (List.pairwise_lt_range 30).imp ?_
    intro i j hij b hb c hc
    rw [(mkEntry_date (Option.mem_def.mp hb)).1, (mkEntry_date (Option.mem_def.mp hc)).1]
    exact hij
  · intro r
    constructor
    · intro h
      simp only [has_market_data, has_yesterday_data, Bool.and_eq_true, Bool.or_eq_true] at h
      simp only [Bool.or_eq_true]
      tauto
    · intro h
      simp only [Bool.or_eq_true] at h
      simp only [has_market_data, has_yesterday_data, Bool.and_eq_true, Bool.or_eq_true]
      rcases h with ((h1 | h1) | h1) | h1
      · exact Or.inl ⟨by simp [containsKey_ne_nil h1], Or.inl (Or.inl h1)⟩
      · exact Or.inl ⟨by simp [containsKey_ne_nil h1], Or.inl (Or.inr h1)⟩
      · exact Or.inl ⟨by simp [containsKey_ne_nil h1], Or.inr h1⟩
      · exact Or.inr ⟨by simp [containsKey_ne_nil h1], h1⟩

/-- Witness for C4: the characterization applied with an empty store. -/
theorem get_historical_summary_spec_witness :
    get_historical_summary 7 none (fun _ => none) = [] :=
  (get_historical_summary_spec 7 none (fun _ => none)).1.trans (by with_unfolding_all decide)

/-- A record with only a market-stats section (one of the qualifying keys)
and no previous-day-performance data. -/
def recMarketOnly : DayRecord := ⟨[("涨停数量", JVal.num 5)], []⟩

/-- C9: every emitted historical-summary entry has `has_valid_data` true
exactly when its record BOTH has a non-empty market-stats section with at
least one of the keys 涨停数量/跌停数量/赚钱效应 AND a
previous-day-performance section containing 昨日涨停股数量; since
inclusion in the summary needs only one of the two, the output can contain
entries whose flag is false. -/
theorem has_valid_data_flag_spec (max_days : ℕ) (cur : Option DayRecord)
    (load : ℕ → Option DayRecord) :
    (∀ e ∈ get_historical_summary max_days cur load,
      ∃ r, effLoad cur load e.date = some r ∧
        e.has_valid_data
          = ((!r.marketStats.isEmpty
              && (containsKey r.marketStats "涨停数量" || containsKey r.marketStats "跌停数量"
                || containsKey r.marketStats "赚钱效应"))
            && (!r.yesterdayPerf.isEmpty && containsKey r.yesterdayPerf "昨日涨停股数量"))) ∧
    (∃ load2 : ℕ → Option DayRecord, ∃ e,
      e ∈ get_historical_summary 1 none load2 ∧ e.has_valid_data = false) := by
  constructor
  · intro e he
    have heq2 : get_historical_summary max_days cur load
        = ((List.range 30).filterMap (fun i => mkEntry i (effLoad cur load i))).take max_days :=
      summaryLoop_eq cur load (List.range 30) max_days
    rw [heq2] at he
    have he2 := List.Sublist.mem he (List.take_sublist _ _)
    rcases List.mem_filterMap.mp he2 with ⟨i, hi, hEi⟩
    rcases mkEntry_date hEi with ⟨hdate, r, hr, hval, herec⟩
    refine ⟨r, by rw [hdate]; exact hr, ?_⟩
    rw [herec]
    rfl
  · refine ⟨fun _ => some recMarketOnly, mkDaySummary 0 recMarketOnly, ?_, ?_⟩
    · with_unfolding_all decide
    · with_unfolding_all decide

/-- Witness for C9: the flag theorem applied at the market-stats-only
record, whose emitted entry carries `has_valid_data = false`. -/
theorem has_valid_data_flag_spec_witness :
    ∃ r, effLoad none (fun _ => some recMarketOnly) (mkDaySummary 0 recMarketOnly).date = some r ∧
      (mkDaySummary 0 recMarketOnly).has_valid_data
        = ((!r.marketStats.isEmpty
            && (containsKey r.marketStats "涨停数量" || containsKey r.marketStats "跌停数量"
              || containsKey r.marketStats "赚钱效应"))
          && (!r.yesterdayPerf.isEmpty && containsKey r.yesterdayPerf "昨日涨停股数量")) :=
  (has_valid_data_flag_spec 1 none (fun _ => some recMarketOnly)).1
    (mkDaySummary 0 recMarketOnly) (by with_unfolding_all decide)

theorem dictGetD_cons_eq {k0 k : String} {v : JVal} {m : List (String × JVal)} {d : JVal}
    (h : (k0 == k) = true) : dictGetD ((k0, v) :: m) k d = v := by
  simp [dictGetD, List.find?_cons, h]

theorem dictGetD_cons_ne {k0 k : String} {v : JVal} {m : List (String × JVal)} {d : JVal}
    (h : (k0 == k) = false) : dictGetD ((k0, v) :: m) k d = dictGetD m k d := by
  simp [dictGetD, List.find?_cons, h]

/-- C8: decimal display strings round-trip through the historical
summary's coercion.  A parseable decimal string with a trailing `%` (or a
trailing `亿` unit) coerces back to exactly the original number — in
particular within the 0.01 tolerance; a string that cannot be parsed after
stripping the decoration coerces to the default 0 without raising; and a
record carrying such an unparseable field is still summarized: the entry is
still produced, the bad field reads 0, and the other fields are unchanged. -/
theorem safe_extract_number_roundtrip_spec :
    (∀ (s : List Char) (q d : ℚ), parseFloat s = some q →
      safe_extract_number (.str (s ++ ['%'])) d = q ∧
      |safe_extract_number (.str (s ++ ['%'])) d - q| ≤ 1/100) ∧
    (∀ (s : List Char) (q d : ℚ), parseFloat s = some q →
      safe_extract_number (.str (s ++ ['亿'])) d = q ∧
      |safe_extract_number (.str (s ++ ['亿'])) d - q| ≤ 1/100) ∧
    (∀ (s : List Char) (d : ℚ), s.contains '%' = true →
      parseFloat (removeChar s '%') = none → safe_extract_number (.str s) d = d) ∧
    (∀ (ms yp : List (String × JVal)) (s : List Char) (i : ℕ),
      s.contains '%' = true → parseFloat (removeChar s '%') = none →
      mkEntry i (some ⟨("赚钱效应", .str s) :: ms, yp⟩)
        = some (mkDaySummary i ⟨("赚钱效应", .str s) :: ms, yp⟩) ∧
      (mkDaySummary i ⟨("赚钱效应", .str s) :: ms, yp⟩).money_effect = 0 ∧
      (mkDaySummary i ⟨("赚钱效应", .str s) :: ms, yp⟩).limit_up_count
        = (mkDaySummary i ⟨ms, yp⟩).limit_up_count ∧
      (mkDaySummary i ⟨("赚钱效应", .str s) :: ms, yp⟩).limit_down_count
        = (mkDaySummary i ⟨ms, yp⟩).limit_down_count ∧
      (mkDaySummary i ⟨("赚钱效应", .str s) :: ms, yp⟩).total_amount
        = (mkDaySummary i ⟨ms, yp⟩).total_amount ∧
      (mkDaySummary i ⟨("赚钱效应", .str s) :: ms, yp⟩).exploded_rate
        = (mkDaySummary i ⟨ms, yp⟩).exploded_rate ∧
      (mkDaySummary i ⟨("赚钱效应", .str s) :: ms, yp⟩).yesterday_avg_perf
        = (mkDaySummary i ⟨ms, yp⟩).yesterday_avg_perf) := by
  refine ⟨?_, ?_, ?_, ?_⟩
  · intro s q d h
    have h1 := safe_extract_pct_roundtrip d h
    exact ⟨h1, by rw [h1, sub_self, abs_zero]; norm_num⟩
  · intro s q d h
    have h1 := safe_extract_amount_roundtrip d h
    exact ⟨h1, by rw [h1, sub_self, abs_zero]; norm_num⟩
  · intro s d h1 h2
    exact safe_extract_unparseable d h1 h2
  · intro ms yp s i h1 h2
    have hm : has_market_data (("赚钱效应", JVal.str s) :: ms) = true := by
      simp [has_market_data, containsKey]
    refine ⟨by simp [mkEntry, hm], ?_, ?_, ?_, ?_, ?_, rfl⟩
    · show getNum (("赚钱效应", JVal.str s) :: ms) "赚钱效应" = 0
      unfold getNum
      rw [dictGetD_cons_eq (by decide)]
      exact safe_extract_unparseable 0 h1 h2
    · show getNum (("赚钱效应", JVal.str s) :: ms) "涨停数量" = getNum ms "涨停数量"
      unfold getNum
      rw [dictGetD_cons_ne (by decide)]
    · show getNum (("赚钱效应", JVal.str s) :: ms) "跌停数量" = getNum ms "跌停数量"
      unfold getNum
      rw [dictGetD_cons_ne (by decide)]
    · show getNum (("赚钱效应", JVal.str s) :: ms) "总成交额" = getNum ms "总成交额"
      unfold getNum
      rw [dictGetD_cons_ne (by decide)]
    · show getNum (("赚钱效应", JVal.str s) :: ms) "炸板率" = getNum ms "炸板率"
      unfold getNum
      rw [dictGetD_cons_ne (by decide)]

set_option maxRecDepth 4000 in
/-- Witness for C8: "12.34%" coerces back to exactly 12.34. -/
theorem safe_extract_number_roundtrip_spec_witness :
    safe_extract_number (.str ((['1', '2', '.', '3', '4'] : List Char) ++ ['%'])) 0 = 1234/100 :=
  (safe_extract_number_roundtrip_spec.1 ['1', '2', '.', '3', '4'] (1234/100) 0
    (by with_unfolding_all decide)).1

/-- One row of the previous-session limit-up pool
(`ak.stock_zt_pool_previous_em`): code 代码, name 名称 and the 昨日连板数
count read with default 1. -/
structure PrevRow where
  code : String
  name : String
  consecutive : Nat
deriving DecidableEq, Repr

/-- `today_dict = {row['代码']: row for _, row in today_data.iterrows()}`
(fetch_data.py:800) followed by lookup: a Python dict comprehension keeps
the LAST row per code. -/
def lookupLast (snapshot : List StockRow) (code : String) : Option StockRow :=
  snapshot.reverse.find? (fun r => r.code == code)

/-- Result of `get_yesterday_performance`: the 无数据 sentinel (empty
previous pool), the 无有效数据 sentinel (empty join), or the numeric
record {昨日涨停股数量, 今日平均表现, 今日上涨比例, 昨日炸板股今日平均}. -/
inductive YPerfResult where
  | noData
  | noValidData
  | stats (count : ℕ) (avgPerformance upRatio explodedAvg : ℚ)
deriving DecidableEq, Repr

/-- Today's percent changes of the previous-day cohort members found in
today's snapshot (fetch_data.py:802-812); cohort entries absent from the
snapshot are silently dropped. -/
def joinPerformance (prevPool : List PrevRow) (snapshot : List StockRow) : List ℚ :=
  prevPool.filterMap (fun s => (lookupLast snapshot s.code).map (fun t => t.pct))

/-- The inner 炸板股 block (fetch_data.py:820-831): the previous session's
exploded pool joined against today's snapshot; its mean today, `0` when the
join is empty or the fetch raises (the inner bare `except`). -/
def explodedJoinAvg (snapshot : List StockRow) : Except Unit (List PoolRow) → ℚ
  | .error _ => 0
  | .ok ed =>
    if (ed.filterMap (fun s => (lookupLast snapshot s.code).map (fun t => t.pct))).isEmpty then 0
    else
      (ed.filterMap (fun s => (lookupLast snapshot s.code).map (fun t => t.pct))).foldl (· + ·) 0
        / ((ed.filterMap (fun s => (lookupLast snapshot s.code).map (fun t => t.pct))).length : ℚ)

/-- Embedding of `AShareAnalyzer.get_yesterday_performance`
(fetch_data.py:787-844): 无数据 for an empty previous pool; otherwise join
the cohort against today's snapshot; numeric statistics when the join is
non-empty, else 无有效数据. -/
def get_yesterday_performance (prevPool : List PrevRow) (snapshot : List StockRow)
    (fetchExploded : Except Unit (List PoolRow)) : YPerfResult :=
  if prevPool.isEmpty then .noData
  else if (joinPerformance prevPool snapshot).isEmpty then .noValidData
  else
    .stats (joinPerformance prevPool snapshot).length
      (roundTo2 ((joinPerformance prevPool snapshot).foldl (· + ·) 0
        / ((joinPerformance prevPool snapshot).length : ℚ)))
      (roundTo2 (((joinPerformance prevPool snapshot).countP (fun x => decide (0 < x)) : ℚ)
        / ((joinPerformance prevPool snapshot).length : ℚ) * 100))
      (roundTo2 (explodedJoinAvg snapshot fetchExploded))

/-- The join is empty exactly when no cohort member's code appears in the
snapshot. -/
theorem joinPerformance_eq_nil {prevPool : List PrevRow} {snapshot : List StockRow} :
    joinPerformance prevPool snapshot = [] ↔
      ∀ s ∈ prevPool, ∀ r ∈ snapshot, r.code ≠ s.code := by
  unfold joinPerformance
  rw [List.filterMap_eq_nil_iff]
  constructor
  · intro h s hs r hr hc
    have h1 := h s hs
    rw [Option.map_eq_none'] at h1
    unfold lookupLast at h1
    rw [List.find?_eq_none] at h1
    exact h1 r (List.mem_reverse.mpr hr) (beq_iff_eq.mpr hc)
  · intro h s hs
    rw [Option.map_eq_none']
    unfold lookupLast
    rw [List.find?_eq_none]
    intro r hr hb
    exact h s hs r (List.mem_reverse.mp hr) (beq_iff_eq.mp hb)

theorem lookupLast_some_mem {snapshot : List StockRow} {code : String} {t : StockRow}
    (h : lookupLast snapshot code = some t) : t ∈ snapshot ∧ t.code = code := by
  unfold lookupLast at h
  have h1 := List.mem_of_find?_eq_some h
  have h2 := List.find?_some h
  exact ⟨List.mem_reverse.mp h1, beq_iff_eq.mp h2⟩

/-- C10: the 无数据 sentinel is returned exactly for an empty previous-day
pool; the 无有效数据 sentinel exactly when the pool is non-empty but none
of its entries is present in today's snapshot (the join is empty); the
numeric fields are produced exactly when at least one cohort member joins
today's snapshot, and the reported count is the (positive) size of the
join. -/
theorem get_yesterday_performance_sentinels (prevPool : List PrevRow)
    (snapshot : List StockRow) (fex : Except Unit (List PoolRow)) :
    (get_yesterday_performance prevPool snapshot fex = .noData ↔ prevPool = []) ∧
    (get_yesterday_performance prevPool snapshot fex = .noValidData ↔
      (prevPool ≠ [] ∧ ∀ s ∈ prevPool, ∀ r ∈ snapshot, r.code ≠ s.code)) ∧
    ((∃ c a u e, get_yesterday_performance prevPool snapshot fex = .stats c a u e) ↔
      ∃ s ∈ prevPool, ∃ r ∈ snapshot, r.code = s.code) ∧
    (∀ c a u e, get_yesterday_performance prevPool snapshot fex = .stats c a u e →
      c = (joinPerformance prevPool snapshot).length ∧ 0 < c) := by
  by_cases hp : prevPool.isEmpty = true
  · have hpl : prevPool = [] := List.isEmpty_iff.mp hp
    subst hpl
    refine ⟨?_, ?_, ?_, ?_⟩
    · simp [get_yesterday_performance]
    · simp [get_yesterday_performance]
    · simp [get_yesterday_performance]
    · intro c a u e h
      simp [get_yesterday_performance] at h
  · have hpl : prevPool ≠ [] := by
      intro h
      rw [h] at hp
      exact hp rfl
    by_cases hj : (joinPerformance prevPool snapshot).isEmpty = true
    · have hjn : joinPerformance prevPool snapshot = [] := List.isEmpty_iff.mp hj
      have hres : get_yesterday_performance prevPool snapshot fex = .noValidData := by
        unfold get_yesterday_performance
        rw [if_neg hp, if_pos hj]
      refine ⟨?_, ?_, ?_, ?_⟩
      · rw [hres]
        constructor
        · intro h
          cases h
        · intro h
          exact absurd h hpl
      · rw [hres]
        constructor
        · intro _
          exact ⟨hpl, joinPerformance_eq_nil.mp hjn⟩
        · intro _
          rfl
      · rw [hres]
        constructor
        · rintro ⟨c, a, u, e, h⟩
          cases h
        · rintro ⟨s, hs, r, hr, hc⟩
          exact absurd hc (joinPerformance_eq_nil.mp hjn s hs r hr)
      · intro c a u e h
        rw [hres] at h
        cases h
    · have hjnn : joinPerformance prevPool snapshot ≠ [] := by
        intro h
        rw [h] at hj
        exact hj rfl
      refine ⟨?_, ?_, ?_, ?_⟩
      · unfold get_yesterday_performance
        rw [if_neg hp, if_neg hj]
        constructor
        · intro h
          cases h
        · intro h
          exact absurd h hpl
      · unfold get_yesterday_performance
        rw [if_neg hp, if_neg hj]
        constructor
        · intro h
          cases h
        · rintro ⟨-, hall⟩
          exact absurd (joinPerformance_eq_nil.mpr hall) hjnn
      · constructor
        · rintro -
          have h1 : ¬ ∀ a ∈ prevPool,
              ((lookupLast snapshot a.code).map (fun t => t.pct)) = none := by
            intro hall
            exact hjnn (List.filterMap_eq_nil_iff.mpr hall)
          push_neg at h1
          rcases h1 with ⟨s, hs, hsome⟩
          cases hlk : lookupLast snapshot s.code with
          | none =>
            rw [hlk] at hsome
            simp at hsome
          | some t =>
            rcases lookupLast_some_mem hlk with ⟨htm, htc⟩
            exact ⟨s, hs, t, htm, htc⟩
        · rintro -
          have heq : get_yesterday_performance prevPool snapshot fex
              = .stats (joinPerformance prevPool snapshot).length
                (roundTo2 ((joinPerformance prevPool snapshot).foldl (· + ·) 0
                  / ((joinPerformance prevPool snapshot).length : ℚ)))
                (roundTo2 (((joinPerformance prevPool snapshot).countP
                    (fun x => decide (0 < x)) : ℚ)
                  / ((joinPerformance prevPool snapshot).length : ℚ) * 100))
                (roundTo2 (explodedJoinAvg snapshot fex)) := by
            unfold get_yesterday_performance
            rw [if_neg hp, if_neg hj]
          exact ⟨_, _, _, _, heq⟩
      · intro c a u e h
        unfold get_yesterday_performance at h
        rw [if_neg hp, if_neg hj] at h
        injection h with hc ha hu he
        exact ⟨hc.symm, by rw [← hc]; exact List.length_pos.mpr hjnn⟩

/-- Witness for C10: the sentinel theorem applied at the empty pool. -/
theorem get_yesterday_performance_sentinels_witness :
    get_yesterday_performance [] [] (Except.ok []) = YPerfResult.noData :=
  (get_yesterday_performance_sentinels [] [] (.ok [])).1.mpr rfl
